import Mathlib

set_option autoImplicit false

/-!
Verification development for the IGDB scraping scripts
(src/scripts/igdb.py and src/scripts/igdb_playlists.py).

The Python code is shallowly embedded: pure functions become Lean
functions, the retry loop and the cooperative task-group orchestration
become explicit step functions driven by scripted environments, and
fallible code returns `Except`.  Symbols that igdb.py imports from
igdb_playlists.py but that are absent from the source shown here
(get_playlist, PLAYLISTS_BY_TITLE, Multiquery, Playlist.query_pages,
MAX_ACTIVE_QUERIES, MAX_QUERY_RATE, MULTIQUERY_MAX) are modelled from
the specification and are marked as such in their doc comments.
-/

namespace Igdb

/-! ## The Query model (igdb_playlists.py, class Query) -/

/-- Sort direction literal, from the `SortDirection = Literal['asc', 'desc']`
type in igdb_playlists.py. -/
inductive SortDir where
  | asc
  | desc
deriving DecidableEq

/-- Wire text of a sort direction (the literal itself). -/
def SortDir.render : SortDir → String
  | .asc => "asc"
  | .desc => "desc"

/-- Argument shapes accepted for `fields` / `exclude` by `Query.__init__`:
a single comma-separated string, an iterable of strings, or None. -/
inductive FieldsArg where
  | str (s : String)
  | list (l : List String)
  | none

/-- The `Query` dataclass of igdb_playlists.py (lines 106-114).
`where` is a Lean keyword, so the attribute is called `whereClause`. -/
structure Query where
  fields : Option (List String)
  exclude : Option (List String)
  whereClause : Option String
  limit : Option Int
  offset : Option Int
  sort : Option (String × SortDir)
  search : Option String
deriving DecidableEq

/-- Python `str.strip()`: drop whitespace from both ends. -/
def pyStrip (s : String) : String :=
  ((s.data.dropWhile Char.isWhitespace).reverse.dropWhile
    Char.isWhitespace).reverse.asString

/-- Helper for `pySplitComma`: accumulate the current piece (reversed)
while scanning the remaining characters. -/
def pySplitAux (sep : Char) : List Char → List Char → List String
  | [], acc => [acc.reverse.asString]
  | c :: cs, acc =>
      if c = sep then acc.reverse.asString :: pySplitAux sep cs []
      else pySplitAux sep cs (c :: acc)

/-- Python `str.split(",")`: split on every comma; the empty string
yields one empty piece. -/
def pySplitComma (s : String) : List String := pySplitAux ',' s.data []

/-- Normalisation of a `fields` / `exclude` argument performed by
`Query.__init__` (lines 128-146): a string is split on commas and each
entry stripped; an iterable is stripped entrywise; None stays None. -/
def normFieldArg : FieldsArg → Option (List String)
  | .str s => some ((pySplitComma s).map pyStrip)
  | .list l => some (l.map pyStrip)
  | .none => Option.none

/-- Python truthiness of an optional string (`if search and sort:` treats
None and the empty string as falsy). -/
def truthyStr : Option String → Bool
  | Option.none => false
  | some s => s ≠ ""

/-- `Query.__init__` (igdb_playlists.py lines 116-165).  The TypeError
branches are unrepresentable in the typed embedding; the remaining
fallible behaviour is the ValueError raised when both `search` and
`sort` are truthy (line 161: `if search and sort:`).  A non-None `sort`
is a 2-tuple and hence always truthy in Python. -/
def mkQuery (fields exclude : FieldsArg) (whereArg : Option String)
    (limit offset : Option Int) (sort : Option (String × SortDir))
    (search : Option String) : Except String Query :=
  if truthyStr search && sort.isSome then
    .error "Cannot specify both search and sort in a query."
  else
    .ok ⟨normFieldArg fields, normFieldArg exclude, whereArg.map pyStrip,
         limit, offset, sort, search⟩

/-- The clause list built by `Query.__str__` (igdb_playlists.py lines
167-190), in the fixed source order fields, exclude, where, limit,
offset, sort, search.  The `if self.fields:` style tests use Python
truthiness: a None or empty tuple/string contributes no clause, while
`limit` and `offset` are tested with `is not None` and so emit a clause
even when 0. -/
def queryClauses (q : Query) : List String :=
  (match q.fields with
   | some fs => if fs.isEmpty then [] else ["fields " ++ String.intercalate "," fs]
   | Option.none => [])
  ++ (match q.exclude with
   | some fs => if fs.isEmpty then [] else ["exclude " ++ String.intercalate "," fs]
   | Option.none => [])
  ++ (match q.whereClause with
   | some w => if w = "" then [] else ["where " ++ w]
   | Option.none => [])
  ++ (match q.limit with
   | some n => ["limit " ++ toString n]
   | Option.none => [])
  ++ (match q.offset with
   | some n => ["offset " ++ toString n]
   | Option.none => [])
  ++ (match q.sort with
   | some p => ["sort " ++ p.1 ++ " " ++ p.2.render]
   | Option.none => [])
  ++ (match q.search with
   | some s => if s = "" then [] else ["search \"" ++ s ++ "\""]
   | Option.none => [])

/-- `Query.__str__`: clauses joined by the two-character separator and a
trailing semicolon (line 190). -/
def queryStr (q : Query) : String :=
  String.intercalate "; " (queryClauses q) ++ ";"

/-! ## The retrying executor (igdb.py, query_endpoint and its backoff
decorators, lines 131-192) -/

/-- `RETRY_CODES` (igdb.py lines 131-138): request timeout, too many
requests, internal server error, bad gateway, service unavailable,
gateway timeout. -/
def RETRY_CODES : List Nat := [408, 429, 500, 502, 503, 504]

/-- One scripted outcome of the underlying dispatch
(`query_igdb`, one HTTP round trip): the server answered with a status
code, or the dispatch raised an `HTTPStatusError` carrying a status, or
it raised some other exception (a transport failure such as
`httpx.ConnectError`). -/
inductive DispatchOutcome where
  | resp (status : Nat)
  | exnHTTP (status : Nat)
  | exnOther
deriving DecidableEq

/-- Result of running the decorated `query_endpoint` under bounded fuel:
the function returned a response (with its status), re-raised an
`HTTPStatusError`, propagated a non-HTTP exception, or was still inside
its retry loop when the fuel ran out. -/
inductive QEResult where
  | returned (status : Nat)
  | raisedHTTP (status : Nat)
  | raisedOther
  | stillRetrying
deriving DecidableEq

/-- The retry loop of `query_endpoint` (igdb.py lines 183-192) under its
two stacked decorators, evaluated against a scripted stream of dispatch
outcomes (`outcomes i` is what the i-th physical dispatch does).

Inner decorator `backoff.on_predicate(backoff.expo, on_predicate)` has
no max_tries, so a returned response whose status is in `RETRY_CODES`
(the predicate, lines 174-181) is retried without any attempt bound;
a response outside `RETRY_CODES` is returned as is.

Outer decorator `backoff.on_exception(backoff.expo, HTTPStatusError,
max_tries=5, giveup=giveup)` catches only `HTTPStatusError`.  `t` counts
the tries it has made; after catching an exception on try `t + 1` it
re-raises when `t + 1 = 5` or when `giveup` holds, i.e. when the status
is outside `RETRY_CODES` (lines 158-169: retryable codes return False,
every other error status returns `is_error = True`).  Any other
exception is not caught and propagates at once.

The state is `(i, t)`: `i` dispatches done so far, `t` outer tries
consumed.  The second component of the result is the total number of
dispatches that were made. -/
def qeAux (outcomes : Nat → DispatchOutcome) : Nat → Nat → Nat → QEResult × Nat
  | _, _, 0 => (.stillRetrying, 0)
  | i, t, fuel + 1 =>
    match outcomes i with
    | .resp s =>
        if s ∈ RETRY_CODES then
          let r := qeAux outcomes (i + 1) t fuel
          (r.1, r.2 + 1)
        else (.returned s, 1)
    | .exnHTTP s =>
        if t + 1 = 5 || decide (s ∉ RETRY_CODES) then (.raisedHTTP s, 1)
        else
          let r := qeAux outcomes (i + 1) (t + 1) fuel
          (r.1, r.2 + 1)
    | .exnOther => (.raisedOther, 1)

/-- `query_endpoint` on a scripted outcome stream, with fuel bounding how
many dispatches we are willing to unfold.  Returns the result together
with the number of dispatch attempts actually made. -/
def queryEndpoint (outcomes : Nat → DispatchOutcome) (fuel : Nat) : QEResult × Nat :=
  qeAux outcomes 0 0 fuel

/-! ## Pager: page plan and multiquery batching -/

/-- Modelled from the spec: `MULTIQUERY_MAX`, the remote API's
batch-count ceiling of 20 sub-queries per multiquery, imported by
igdb.py from igdb_playlists.py but absent from the source shown. -/
def MULTIQUERY_MAX : Nat := 20

/-- Modelled from the spec: `MAX_ACTIVE_QUERIES`, imported by igdb.py
(line 154) but absent from the source shown — at most 8 requests in
flight. -/
def MAX_ACTIVE_QUERIES : Nat := 8

/-- Modelled from the spec: `MAX_QUERY_RATE`, imported by igdb.py
(line 155) but absent from the source shown — 4 requests per second. -/
def MAX_QUERY_RATE : Nat := 4

/-- The page-size ceiling used by every playlist: the default
`limit=500` of `Playlist.__init__` (igdb_playlists.py line 225). -/
def PAGE_LIMIT : Nat := 500

/-- Modelled from the spec: the page plan underlying
`Playlist.query_pages`, which is imported by igdb.py but absent from the
source shown.  Per the spec, `plan_pages(total_count, page_size)` yields
the ordered `(offset, limit)` windows covering `[0, total_count)`, each
window's limit equal to `page_size` except possibly the final window,
which is clamped to the remainder; a zero count yields no windows.
The fuel argument is an upper bound on the number of windows; since a
window consumes at least one item when `page_size` is at least 1,
`total_count` itself is enough fuel. -/
def planPagesGo (ps : Nat) : Nat → Nat → Nat → List (Nat × Nat)
  | 0, _, _ => []
  | _ + 1, _, 0 => []
  | fuel + 1, offset, remaining =>
      if remaining ≤ ps then [(offset, remaining)]
      else (offset, ps) :: planPagesGo ps fuel (offset + ps) (remaining - ps)

/-- Modelled from the spec: `plan_pages(total_count, page_size)`. -/
def plan_pages (total ps : Nat) : List (Nat × Nat) :=
  planPagesGo ps total 0 total

/-- Modelled from the spec: a page `Query` produced by
`Playlist.query_pages` is a copy of the playlist's base query whose
`offset` and `limit` are overridden to the window's values; every other
attribute, in particular `where`, is inherited unchanged. -/
def pageQuery (base : Query) (w : Nat × Nat) : Query :=
  { base with offset := some (w.1 : Int), limit := some (w.2 : Int) }

/-- `itertools.batched(xs, n)` (igdb.py line 215): successive chunks of
at most `n` elements, in order.  Fuel-driven; the list's own length is
always enough fuel when `n` is at least 1. -/
def batchedGo {α : Type} (n : Nat) : Nat → List α → List (List α)
  | _, [] => []
  | 0, _ :: _ => []
  | fuel + 1, x :: xs => (x :: xs).take n :: batchedGo n fuel ((x :: xs).drop n)

/-- `itertools.batched` with the standard fuel. -/
def batched {α : Type} (n : Nat) (xs : List α) : List (List α) :=
  batchedGo n xs.length xs

/-- The multiquery sub-query label built at igdb.py line 216:
`f"TITLE (OFFSET-LAST)"` where `LAST = offset + limit - 1`. -/
def mkLabel (title : String) (w : Nat × Nat) : String :=
  title ++ " (" ++ Nat.repr w.1 ++ "-" ++ Nat.repr (w.1 + w.2 - 1) ++ ")"

/-- Insertion into a Python dict rendered as an insertion-ordered
association list: an existing key is overwritten in place, a new key is
appended. -/
def dictInsert {β : Type} (d : List (String × β)) (k : String) (v : β) :
    List (String × β) :=
  if d.any (fun p => p.1 == k) then
    d.map (fun p => if p.1 == k then (k, v) else p)
  else d ++ [(k, v)]

/-- The dict built by a Python dict comprehension over the given pairs
(insertion order, later duplicates overwrite earlier ones in place). -/
def dictOfPairs {β : Type} (ps : List (String × β)) : List (String × β) :=
  ps.foldl (fun d p => dictInsert d p.1 p.2) []

/-- The `Multiquery` value built for one batch at igdb.py line 216: a
dict mapping each sub-query's label to the pair of the endpoint
`'games'` and the page query.  (`Multiquery` itself is imported from
igdb_playlists.py and absent from the source shown; modelled from the
spec as a named group of labelled sub-queries.) -/
def mkMultiquery (title : String) (base : Query) (batch : List (Nat × Nat)) :
    List (String × String × Query) :=
  dictOfPairs (batch.map (fun w => (mkLabel title w, ("games", pageQuery base w))))

/-! ## Item records, count validation and the merge step -/

/-- An item record as the merge step sees it: the scrape only ever
inspects the record's `name` field (the sort key at igdb.py line 247);
the rest of the JSON object is opaque and is carried as an identifying
payload so that stability of the sort is observable. -/
structure Game where
  name : String
  payload : Nat
deriving DecidableEq

/-- The sort key comparison used by `games.sort(key=lambda g: g['name'])`:
Python list.sort is a stable ascending sort, comparing the keys with the
case-sensitive code-point order on strings.  Written over the strings'
character lists (the lexicographic order on code points) so that it
evaluates by reduction; `nameLe a b` agrees with `a.name ≤ b.name`. -/
def nameLe (a b : Game) : Bool := decide (¬ b.name.data < a.name.data)

/-- A small JSON value universe, enough to express the bodies the count
validation inspects. -/
inductive JVal where
  | jnum (n : Int)
  | jstr (s : String)
  | jbool (b : Bool)
  | jnull
  | jarr (xs : List JVal)
  | jobj (kvs : List (String × JVal))

/-- A scripted response to the `games/count` query: its Content-Type
header, its status code, and its decoded JSON body (`Option.none` means
`response.json()` raises `JSONDecodeError`). -/
structure CountResp where
  contentType : Option String
  status : Nat
  body : Option JVal

/-- The errors a playlist task can terminate with; the messages are
short stand-ins for the interpolated Python messages. -/
inductive PErr where
  | valueError (msg : String)
  | httpStatusError (status : Nat)
  | jsonDecodeError
deriving DecidableEq

/-- Validation of the count response, from `fetch_playlist`
(igdb.py lines 196-213), in source order: the Content-Type header must
be exactly `application/json`; the body must decode; it must be a JSON
object; it must contain a `count` key (if it does not, an error status
raises `HTTPStatusError` via `raise_for_status`, and a success status
raises a ValueError); and the value must be a number (in Python a bool
is a `numbers.Number` and `int(...)` maps it to 0 or 1). -/
def validateCount (r : CountResp) : Except PErr Int :=
  if r.contentType ≠ some "application/json" then
    .error (.valueError "count response is not JSON")
  else
    match r.body with
    | Option.none => .error .jsonDecodeError
    | some (.jobj kvs) =>
        match kvs.lookup "count" with
        | Option.none =>
            if 400 ≤ r.status then .error (.httpStatusError r.status)
            else .error (.valueError "count response lacks a count attribute")
        | some (.jnum n) => .ok n
        | some (.jbool b) => .ok (if b then 1 else 0)
        | some _ => .error (.valueError "count is not a number")
    | some _ => .error (.valueError "count response is not an object")

/-- The decoded body of a scripted multiquery response: the JSON decode
failed, or decoded to something that is not an array, or decoded to an
array of sub-results, each carrying its label and its `result` array of
item records. -/
inductive MqBody where
  | decodeFail
  | notArray
  | arrOf (subs : List (String × List Game))
deriving DecidableEq

/-- A scripted response to one multiquery dispatch. -/
structure MqResp where
  status : Nat
  contentType : Option String
  body : MqBody
deriving DecidableEq

/-- Processing of one multiquery response inside the merge loop of
`fetch_playlist` (igdb.py lines 224-244), in source order: an error
status raises via `raise_for_status`; a non-JSON Content-Type raises a
ValueError; a body that fails to decode raises a ValueError (from the
JSONDecodeError); a body that is not an array raises a ValueError; and
otherwise each sub-result's `result` array is appended in order
(`games.extend(g['result'])`). -/
def processMqResp (r : MqResp) : Except PErr (List Game) :=
  if 400 ≤ r.status then .error (.httpStatusError r.status)
  else if r.contentType ≠ some "application/json" then
    .error (.valueError "multiquery response is not JSON")
  else
    match r.body with
    | .decodeFail => .error (.valueError "failed to decode multiquery response")
    | .notArray => .error (.valueError "multiquery response is not an array")
    | .arrOf subs => .ok (subs.flatMap (fun g => g.2))

/-- The merge loop over all batch responses in order (igdb.py lines
224-244): the first failing response aborts the playlist, otherwise the
item records accumulate in batch order. -/
def mergeResponses (rs : List MqResp) : Except PErr (List Game) :=
  rs.foldlM (fun acc r => (processMqResp r).map (fun g => acc ++ g)) []

/-- The item records one response contributes: the concatenation of its
sub-results' `result` arrays in sub-result order. -/
def gamesOf (r : MqResp) : List Game :=
  match r.body with
  | .arrOf subs => subs.flatMap (fun g => g.2)
  | _ => []

/-- The item records of the scripted responses, flattened in batch order
(what the merge loop accumulates when every response is well formed). -/
def flattenResponses (rs : List MqResp) : List Game :=
  rs.flatMap gamesOf

/-- Stable insertion of a record into a name-sorted list: the new
record goes after every record whose name is less than or equal to its
own, which is exactly where a stable ascending sort places a
later-arriving element. -/
def insertByName (g : Game) : List Game → List Game
  | [] => [g]
  | a :: t => if nameLe a g then a :: insertByName g t else g :: a :: t

/-- The stable ascending name sort performed by
`games.sort(key=lambda g: g['name'])` (igdb.py line 247): Python
list.sort is a stable sort, ascending under the case-sensitive
code-point order on the key strings; any stable ascending sort computes
the same list, realised here as left-to-right stable insertion. -/
def sortByName (l : List Game) : List Game :=
  l.foldl (fun acc g => insertByName g acc) []

/-- Merge followed by the stable ascending name sort
(igdb.py lines 224-247). -/
def fetchMergeSort (rs : List MqResp) : Except PErr (List Game) :=
  (mergeResponses rs).map (fun gs => sortByName gs)

/-! ## The scrape orchestrator (handle_scrape, igdb.py lines 140-261)

`handle_scrape` runs one `fetch_playlist` coroutine per playlist inside
a single `asyncio.TaskGroup`.  The environment is scripted per playlist
(its count response and one response per multiquery batch), and the
cooperative event loop is modelled as lockstep rounds: in every round
each still-running task completes its current await, in task order.
`asyncio.TaskGroup` semantics: when a task raises, every task of the
group that has not finished is cancelled; already-finished tasks keep
their results.  A playlist's output file is written by the final await
of its `fetch_playlist` (igdb.py lines 251-255), so a task cancelled
before that step writes nothing. -/

/-- Scripted environment for one playlist's `fetch_playlist` run. -/
structure PlaylistScript where
  title : String
  countResp : CountResp
  mq : List MqResp

/-- Default used to index past a script's response list; never reached
when the script provides one response per issued batch. -/
def defaultMqResp : MqResp := ⟨200, some "application/json", .arrOf []⟩

/-- How many multiquery batches `fetch_playlist` issues for a given
count (igdb.py lines 214-216): the page plan for the playlist's
page-size ceiling, chunked by `MULTIQUERY_MAX`.  A negative count (the
body may carry any integer) plans no pages, as `int` ranges below zero
are empty. -/
def numBatches (n : Int) : Nat :=
  (batched MULTIQUERY_MAX (plan_pages n.toNat PAGE_LIMIT)).length

/-- The per-task state of one `fetch_playlist` coroutine between awaits. -/
inductive TState where
  | needCount
  | fetching (i total : Nat)
  | needWrite (games : List Game)
  | finished (games : List Game)
  | failed (e : PErr)
  | cancelled
deriving DecidableEq

/-- A task is live when it is neither finished, nor failed, nor
cancelled. -/
def isLive : TState → Bool
  | .finished _ => false
  | .failed _ => false
  | .cancelled => false
  | _ => true

/-- One await-completion of a `fetch_playlist` task against its script:
the count await validates the count response and schedules the batches
(igdb.py lines 196-219); each batch await consumes one scripted
response (the `asyncio.gather` of line 221 waits for them all before
anything is validated); after the last batch the gathered responses are
validated and merged in order and the name sort is applied (lines
224-248); the final await writes the output file (lines 251-255). -/
def stepTask (sc : PlaylistScript) : TState → TState
  | .needCount =>
      match validateCount sc.countResp with
      | .error e => .failed e
      | .ok n => .fetching 0 (numBatches n)
  | .fetching i total =>
      if i < total then .fetching (i + 1) total
      else
        match fetchMergeSort (List.map (fun j => sc.mq.getD j defaultMqResp)
            (List.range total)) with
        | .error e => .failed e
        | .ok gs => .needWrite gs
  | .needWrite gs => .finished gs
  | s => s

/-- Cancel every live task (what `asyncio.TaskGroup` does to its
remaining tasks when one of them raises). -/
def cancelLive (ts : List (PlaylistScript × TState)) : List (PlaylistScript × TState) :=
  ts.map (fun p => if isLive p.2 then (p.1, .cancelled) else p)

/-- One lockstep round of the event loop over the task list, in task
order, threading the list of written files.  The third component
signals that some task raised during the round: the raising task keeps
its failure, every other live task is cancelled (tasks that finished
earlier in the round keep their files, as their writes already
happened). -/
def runRound : List (PlaylistScript × TState) → List (String × List Game) →
    List (PlaylistScript × TState) × List (String × List Game) × Bool
  | [], files => ([], files, false)
  | (sc, st) :: rest, files =>
    if isLive st then
      match stepTask sc st with
      | .failed e => ((sc, .failed e) :: cancelLive rest, files, true)
      | .finished gs =>
          let r := runRound rest (files ++ [(sc.title, gs)])
          ((sc, .finished gs) :: r.1, r.2.1, r.2.2)
      | st' =>
          let r := runRound rest files
          ((if r.2.2 then (sc, .cancelled) else (sc, st')) :: r.1, r.2.1, r.2.2)
    else
      let r := runRound rest files
      ((sc, st) :: r.1, r.2.1, r.2.2)

/-- Run the event loop for at most `fuel` rounds, stopping early once no
task is live. -/
def runAux : Nat → List (PlaylistScript × TState) → List (String × List Game) →
    List (PlaylistScript × TState) × List (String × List Game)
  | 0, ts, files => (ts, files)
  | fuel + 1, ts, files =>
    if ts.all (fun p => !isLive p.2) then (ts, files)
    else
      let r := runRound ts files
      runAux fuel r.1 r.2.1

/-- The whole scrape run over the scripted playlists: every task starts
at its count request, files start empty. -/
def runScrape (scripts : List PlaylistScript) (fuel : Nat) :
    List (PlaylistScript × TState) × List (String × List Game) :=
  runAux fuel (scripts.map (fun sc => (sc, .needCount))) []

/-! ## Playlist selection (handle_scrape, igdb.py lines 143-151) -/

/-- A playlist of the static catalog, as selection sees it: the title
(also the output filename stem) and its system-id aliases
(igdb_playlists.py lines 197-247). -/
structure PlaylistEntry where
  title : String
  systemids : List String
deriving DecidableEq

/-- Modelled from the spec: `get_playlist`, imported by igdb.py but
absent from the source shown.  Per the CLI help (igdb.py line 330) a
requested name is matched against "the title or system IDs of the
playlists"; an unknown name yields None. -/
def getPlaylist (catalog : List PlaylistEntry) (name : String) : Option PlaylistEntry :=
  catalog.find? (fun p => p.title == name || p.systemids.contains name)

/-- The playlist selection phase of `handle_scrape` (igdb.py lines
143-151), which runs before `authenticate_igdb` and hence before any
network traffic: an empty request list falls back to every known
playlist; unknown names are dropped by `filter(None, ...)`; if nothing
remains, the run fails with a ValueError. -/
def selectPlaylists (catalog : List PlaylistEntry) (names : List String) :
    Except String (List PlaylistEntry) :=
  let args := if names.isEmpty then catalog.map (fun p => p.title) else names
  let ps := args.filterMap (getPlaylist catalog)
  if ps.isEmpty then .error "All listed playlists are unknown." else .ok ps

/-- Decidable equality of `Except` values, for evaluating the embedding
on concrete inputs. -/
instance exceptDecEq {ε α : Type} [DecidableEq ε] [DecidableEq α] :
    DecidableEq (Except ε α) := fun a b =>
  match a, b with
  | .ok x, .ok y =>
      if h : x = y then isTrue (by rw [h])
      else isFalse (fun hc => h (by injection hc))
  | .error x, .error y =>
      if h : x = y then isTrue (by rw [h])
      else isFalse (fun hc => h (by injection hc))
  | .ok _, .error _ => isFalse (fun hc => by injection hc)
  | .error _, .ok _ => isFalse (fun hc => by injection hc)

/-- The sequential composition of the phases of `handle_scrape`:
playlist selection (igdb.py lines 143-151, before `authenticate_igdb`
and before any network dispatch), then the task-group run over the
selected playlists' scripts. -/
def handleScrape (catalog : List PlaylistEntry) (names : List String)
    (mkScript : PlaylistEntry → PlaylistScript) (fuel : Nat) :
    Except String (List (PlaylistScript × TState) × List (String × List Game)) :=
  (selectPlaylists catalog names).map (fun ps => runScrape (ps.map mkScript) fuel)

/-- Scenario: a playlist whose count response is a JSON object whose
`count` value is the string `"not-a-number"`. -/
def invalidCountScript : PlaylistScript :=
  ⟨"Atari - Lynx",
   ⟨some "application/json", 200, some (.jobj [("count", .jstr "not-a-number")])⟩, []⟩

/-- Scenario: a sibling playlist whose count response and single batch
response are well formed; run alone it persists one game. -/
def okScript : PlaylistScript :=
  ⟨"Amstrad - CPC",
   ⟨some "application/json", 200, some (.jobj [("count", .jnum 1)])⟩,
   [⟨200, some "application/json",
     .arrOf [("Amstrad - CPC (0-0)", [⟨"Rick Dangerous", 0⟩])]⟩]⟩

/-- Scenario: a well-formed count response reporting zero items. -/
def zeroCountResp : CountResp :=
  ⟨some "application/json", 200, some (.jobj [("count", .jnum 0)])⟩

/-- Scenario: one batch response with two sub-results whose `result`
arrays contain records with equal names, to observe sort stability. -/
def witnessResponses : List MqResp :=
  [⟨200, some "application/json",
    .arrOf [("B1", [⟨"b", 0⟩, ⟨"a", 1⟩]), ("B2", [⟨"a", 2⟩])]⟩]

/-- Scenario: a two-playlist catalog for the selection claims. -/
def witnessCatalog : List PlaylistEntry :=
  [⟨"Amstrad - CPC", ["cpc"]⟩, ⟨"Atari - Lynx", ["atari_lynx", "lynx"]⟩]

/-! ## Decimal digit strings (used by the multiquery labels) -/

/-- Most-significant-first decimal digits: the functional reading of
`Nat.toDigitsCore` at base 10. -/
def digitsMSF (n : Nat) : List Char :=
  if n < 10 then [Nat.digitChar n]
  else digitsMSF (n / 10) ++ [Nat.digitChar (n % 10)]
termination_by n
decreasing_by exact Nat.div_lt_self (by omega) (by omega)

/-- Decode a most-significant-first digit list. -/
def decodeDec (l : List Char) : Nat :=
  l.foldl (fun a c => a * 10 + (c.toNat - 48)) 0

/-- A multiquery response the merge loop accepts: success status, JSON
Content-Type, and a decoded array body. -/
def wellFormed (r : MqResp) : Prop :=
  r.status < 400 ∧ r.contentType = some "application/json" ∧
    ∃ subs, r.body = .arrOf subs

/-- The run invariant: written files correspond exactly to finished
tasks, and once any task has failed, no task is still running (the task
group cancelled them). -/
def runInv (ts : List (PlaylistScript × TState)) (files : List (String × List Game)) :
    Prop :=
  (∀ p ∈ files, ∃ sc, (sc, TState.finished p.2) ∈ ts ∧ sc.title = p.1) ∧
  (∀ sc gs, (sc, TState.finished gs) ∈ ts → (sc.title, gs) ∈ files) ∧
  ((∃ p ∈ ts, ∃ e, p.2 = TState.failed e) → ∀ p ∈ ts, isLive p.2 = false)

/-! ## Lemmas about the page plan -/

theorem planPagesGo_flatMap (ps : Nat) (hps : 1 ≤ ps) :
    ∀ (fuel off rem : Nat), rem ≤ fuel →
      (planPagesGo ps fuel off rem).flatMap
        (fun w => (List.range w.2).map (w.1 + ·)) = List.range' off rem := by
  intro fuel
  induction fuel with
  | zero =>
    intro off rem h
    have : rem = 0 := by omega
    subst this
    simp [planPagesGo]
  | succ fuel ih =>
    intro off rem h
    match rem with
    | 0 => simp [planPagesGo]
    | r + 1 =>
      show ((if r + 1 ≤ ps then [(off, r + 1)]
          else (off, ps) :: planPagesGo ps fuel (off + ps) (r + 1 - ps)).flatMap _) = _
      by_cases hc : r + 1 ≤ ps
      · simp only [if_pos hc, List.flatMap_cons, List.flatMap_nil, List.append_nil]
        rw [← List.range'_eq_map_range]
      · simp only [if_neg hc, List.flatMap_cons]
        rw [ih (off + ps) (r + 1 - ps) (by omega), ← List.range'_eq_map_range]
        rw [List.range'_append_1]
        have h2 : r + 1 - ps + ps = r + 1 := by omega
        rw [h2]

theorem planPagesGo_ne_nil (ps : Nat) :
    ∀ (fuel off rem : Nat), 0 < rem → rem ≤ fuel →
      planPagesGo ps fuel off rem ≠ [] := by
  intro fuel off rem h1 h2
  cases fuel with
  | zero => omega
  | succ fuel =>
    cases rem with
    | zero => omega
    | succ r =>
      show (if r + 1 ≤ ps then [(off, r + 1)]
          else (off, ps) :: planPagesGo ps fuel (off + ps) (r + 1 - ps)) ≠ []
      by_cases hc : r + 1 ≤ ps <;> simp [hc]

theorem planPagesGo_offset_mono (ps : Nat) (hps : 1 ≤ ps) :
    ∀ (fuel off rem : Nat), rem ≤ fuel →
      (∀ w ∈ planPagesGo ps fuel off rem, off ≤ w.1) ∧
      List.Chain' (fun a b : Nat × Nat => a.1 < b.1) (planPagesGo ps fuel off rem) := by
  intro fuel
  induction fuel with
  | zero =>
    intro off rem h
    have : rem = 0 := by omega
    subst this
    simp [planPagesGo]
  | succ fuel ih =>
    intro off rem h
    match rem with
    | 0 => simp [planPagesGo]
    | r + 1 =>
      show (∀ w ∈ (if r + 1 ≤ ps then [(off, r + 1)]
          else (off, ps) :: planPagesGo ps fuel (off + ps) (r + 1 - ps)), off ≤ w.1) ∧
        List.Chain' _ (if r + 1 ≤ ps then [(off, r + 1)]
          else (off, ps) :: planPagesGo ps fuel (off + ps) (r + 1 - ps))
      by_cases hc : r + 1 ≤ ps
      · simp [hc]
      · simp only [if_neg hc]
        obtain ⟨ihMem, ihChain⟩ := ih (off + ps) (r + 1 - ps) (by omega)
        refine ⟨?_, ?_⟩
        · intro w hw
          rcases List.mem_cons.mp hw with h' | h'
          · subst h'; exact Nat.le_refl off
          · exact Nat.le_trans (by omega) (ihMem w h')
        · refine List.chain'_cons'.mpr ⟨?_, ihChain⟩
          intro y hy
          have := ihMem y (List.mem_of_mem_head? hy)
          omega

theorem planPagesGo_limits (ps : Nat) (hps : 1 ≤ ps) :
    ∀ (fuel off rem : Nat), rem ≤ fuel →
      ∀ w ∈ planPagesGo ps fuel off rem, 1 ≤ w.2 ∧ w.2 ≤ ps := by
  intro fuel
  induction fuel with
  | zero =>
    intro off rem h
    have : rem = 0 := by omega
    subst this
    simp [planPagesGo]
  | succ fuel ih =>
    intro off rem h
    match rem with
    | 0 => simp [planPagesGo]
    | r + 1 =>
      show ∀ w ∈ (if r + 1 ≤ ps then [(off, r + 1)]
          else (off, ps) :: planPagesGo ps fuel (off + ps) (r + 1 - ps)), 1 ≤ w.2 ∧ w.2 ≤ ps
      by_cases hc : r + 1 ≤ ps
      · intro w hw
        rw [if_pos hc] at hw
        simp only [List.mem_singleton] at hw
        subst hw
        exact ⟨Nat.succ_le_succ (Nat.zero_le r), hc⟩
      · simp only [if_neg hc]
        intro w hw
        rcases List.mem_cons.mp hw with h' | h'
        · subst h'; exact ⟨hps, Nat.le_refl ps⟩
        · exact ih (off + ps) (r + 1 - ps) (by omega) w h'

theorem planPagesGo_dropLast (ps : Nat) (hps : 1 ≤ ps) :
    ∀ (fuel off rem : Nat), rem ≤ fuel →
      ∀ w ∈ (planPagesGo ps fuel off rem).dropLast, w.2 = ps := by
  intro fuel
  induction fuel with
  | zero =>
    intro off rem h
    have : rem = 0 := by omega
    subst this
    simp [planPagesGo]
  | succ fuel ih =>
    intro off rem h
    match rem with
    | 0 => simp [planPagesGo]
    | r + 1 =>
      show ∀ w ∈ (if r + 1 ≤ ps then [(off, r + 1)]
          else (off, ps) :: planPagesGo ps fuel (off + ps) (r + 1 - ps)).dropLast, w.2 = ps
      by_cases hc : r + 1 ≤ ps
      · simp [hc]
      · simp only [if_neg hc]
        have hne := planPagesGo_ne_nil ps fuel (off + ps) (r + 1 - ps) (by omega) (by omega)
        rw [List.dropLast_cons_of_ne_nil hne]
        intro w hw
        rcases List.mem_cons.mp hw with h' | h'
        · subst h'; rfl
        · exact ih (off + ps) (r + 1 - ps) (by omega) w h'

/-! ## Lemmas about batching and dict construction -/

theorem batchedGo_flatten {α : Type} (n : Nat) (hn : 1 ≤ n) :
    ∀ (fuel : Nat) (xs : List α), xs.length ≤ fuel →
      (batchedGo n fuel xs).flatten = xs := by
  intro fuel
  induction fuel with
  | zero =>
    intro xs h
    have : xs = [] := List.length_eq_zero.mp (by omega)
    subst this
    rfl
  | succ fuel ih =>
    intro xs h
    match xs with
    | [] => rfl
    | x :: xs =>
      simp only [List.length_cons] at h
      show ((x :: xs).take n :: batchedGo n fuel ((x :: xs).drop n)).flatten = x :: xs
      rw [List.flatten_cons,
        ih ((x :: xs).drop n) (by rw [List.length_drop, List.length_cons]; omega)]
      exact List.take_append_drop n (x :: xs)

theorem batchedGo_mem {α : Type} (n : Nat) (hn : 1 ≤ n) :
    ∀ (fuel : Nat) (xs : List α), ∀ b ∈ batchedGo n fuel xs,
      b.length ≤ n ∧ b ≠ [] ∧ b.Sublist xs := by
  intro fuel
  induction fuel with
  | zero =>
    intro xs b hb
    cases xs <;> simp [batchedGo] at hb
  | succ fuel ih =>
    intro xs b hb
    match xs with
    | [] => simp [batchedGo] at hb
    | x :: xs =>
      have hb' : b ∈ (x :: xs).take n :: batchedGo n fuel ((x :: xs).drop n) := hb
      rcases List.mem_cons.mp hb' with h | h
      · subst h
        refine ⟨by simp, ?_, List.take_sublist n (x :: xs)⟩
        match n, hn with
        | m + 1, _ => simp
      · obtain ⟨h1, h2, h3⟩ := ih ((x :: xs).drop n) b h
        exact ⟨h1, h2, h3.trans (List.drop_sublist n (x :: xs))⟩

theorem batched_flatten {α : Type} (n : Nat) (hn : 1 ≤ n) (xs : List α) :
    (batched n xs).flatten = xs :=
  batchedGo_flatten n hn xs.length xs (Nat.le_refl _)

theorem batched_mem {α : Type} (n : Nat) (hn : 1 ≤ n) (xs : List α) :
    ∀ b ∈ batched n xs, b.length ≤ n ∧ b ≠ [] ∧ b.Sublist xs :=
  batchedGo_mem n hn xs.length xs

theorem dictOfPairs_foldl {β : Type} :
    ∀ (ps acc : List (String × β)),
      (∀ k ∈ acc.map Prod.fst, k ∉ ps.map Prod.fst) →
      (ps.map Prod.fst).Nodup →
      List.foldl (fun d p => dictInsert d p.1 p.2) acc ps = acc ++ ps := by
  intro ps
  induction ps with
  | nil => intro acc _ _; simp
  | cons p ps ih =>
    intro acc hdisj hnd
    have hk : p.1 ∉ acc.map Prod.fst := by
      intro hk
      exact hdisj p.1 hk (by simp)
    have hins : dictInsert acc p.1 p.2 = acc ++ [p] := by
      unfold dictInsert
      have : acc.any (fun q => q.1 == p.1) = false := by
        rw [List.any_eq_false]
        intro q hq
        simp only [beq_iff_eq]
        intro he
        exact hk (he ▸ List.mem_map_of_mem Prod.fst hq)
      rw [this]
      simp
    show List.foldl _ (dictInsert acc p.1 p.2) ps = acc ++ p :: ps
    rw [hins, ih (acc ++ [p]) ?_
      (by rw [List.map_cons] at hnd; exact hnd.of_cons), List.append_assoc]
    · simp
    · intro k hk'
      simp only [List.map_append, List.mem_append] at hk'
      rcases hk' with h | h
      · intro hmem
        exact hdisj k h (by simp [hmem])
      · simp only [List.map_cons, List.map_nil, List.mem_singleton] at h
        subst h
        rw [List.map_cons] at hnd
        intro hmem
        exact (List.nodup_cons.mp hnd).1 hmem

/-- A Python dict comprehension over pairs with pairwise distinct keys
is just the pair list itself. -/
theorem dictOfPairs_eq_self {β : Type} (ps : List (String × β))
    (h : (ps.map Prod.fst).Nodup) : dictOfPairs ps = ps := by
  unfold dictOfPairs
  rw [dictOfPairs_foldl ps [] (by simp) h]
  simp

/-! ## Decimal rendering: `Nat.repr` is injective

Needed to show that the multiquery labels, which embed the decimal
offsets, are unique within a batch. -/

theorem toDigitsCore_eq_digitsMSF :
    ∀ (fuel n : Nat) (ds : List Char), n < fuel →
      Nat.toDigitsCore 10 fuel n ds = digitsMSF n ++ ds := by
  intro fuel
  induction fuel with
  | zero => intro n ds h; omega
  | succ fuel ih =>
    intro n ds h
    show (if n / 10 = 0 then Nat.digitChar (n % 10) :: ds
        else Nat.toDigitsCore 10 fuel (n / 10) (Nat.digitChar (n % 10) :: ds)) = _
    by_cases h10 : n < 10
    · rw [if_pos (by omega), digitsMSF, if_pos h10, Nat.mod_eq_of_lt h10]
      rfl
    · rw [if_neg (by omega), ih (n / 10) _ (by omega)]
      conv_rhs => rw [digitsMSF]
      rw [if_neg h10, List.append_assoc]
      rfl

theorem repr_eq_digitsMSF (n : Nat) : Nat.repr n = (digitsMSF n).asString := by
  show (Nat.toDigitsCore 10 (n + 1) n []).asString = _
  rw [toDigitsCore_eq_digitsMSF (n + 1) n [] (Nat.lt_succ_self n), List.append_nil]

theorem digitChar_toNat (n : Nat) (h : n < 10) : (Nat.digitChar n).toNat = 48 + n := by
  interval_cases n <;> rfl

theorem foldl_digitsMSF (n : Nat) :
    ∀ a : Nat, List.foldl (fun a c => a * 10 + (c.toNat - 48)) a (digitsMSF n) =
      a * 10 ^ (digitsMSF n).length + n := by
  induction n using Nat.strong_induction_on with
  | _ n ih =>
    intro a
    by_cases h : n < 10
    · rw [digitsMSF, if_pos h]
      simp [digitChar_toNat n h]
    · rw [digitsMSF, if_neg h]
      rw [List.foldl_append, ih (n / 10) (Nat.div_lt_self (by omega) (by omega)) a]
      simp only [List.foldl_cons, List.foldl_nil, List.length_append,
        List.length_cons, List.length_nil]
      rw [digitChar_toNat (n % 10) (Nat.mod_lt n (by omega))]
      have hmod : 48 + n % 10 - 48 = n % 10 := by omega
      rw [hmod, Nat.pow_succ]
      have hdm : n / 10 * 10 + n % 10 = n := by omega
      calc (a * 10 ^ (digitsMSF (n / 10)).length + n / 10) * 10 + n % 10
      _ = a * (10 ^ (digitsMSF (n / 10)).length * 10) + (n / 10 * 10 + n % 10) := by ring
      _ = a * (10 ^ (digitsMSF (n / 10)).length * 10) + n := by rw [hdm]

theorem decodeDec_digitsMSF (n : Nat) : decodeDec (digitsMSF n) = n := by
  unfold decodeDec
  rw [foldl_digitsMSF n 0]
  simp

theorem digitsMSF_injective : Function.Injective digitsMSF := by
  intro m n h
  have := decodeDec_digitsMSF m
  rw [h, decodeDec_digitsMSF n] at this
  omega

theorem natRepr_injective : Function.Injective Nat.repr := by
  intro m n h
  rw [repr_eq_digitsMSF, repr_eq_digitsMSF] at h
  have hd : digitsMSF m = digitsMSF n := congrArg String.data h
  exact digitsMSF_injective hd

theorem digitsMSF_no_dash (n : Nat) : ∀ c ∈ digitsMSF n, c ≠ '-' := by
  induction n using Nat.strong_induction_on with
  | _ n ih =>
    by_cases h : n < 10
    · rw [digitsMSF, if_pos h]
      intro c hc
      simp only [List.mem_singleton] at hc
      subst hc
      interval_cases n <;> decide
    · rw [digitsMSF, if_neg h]
      intro c hc
      rcases List.mem_append.mp hc with h' | h'
      · exact ih (n / 10) (Nat.div_lt_self (by omega) (by omega)) c h'
      · simp only [List.mem_singleton] at h'
        subst h'
        intro heq
        have h10 : n % 10 < 10 := Nat.mod_lt n (by omega)
        have h45 := congrArg Char.toNat heq
        rw [digitChar_toNat (n % 10) h10] at h45
        have : ('-').toNat = 45 := rfl
        omega

theorem no_dash_parse :
    ∀ (xs ys as bs : List Char), (∀ c ∈ xs, c ≠ '-') → (∀ c ∈ ys, c ≠ '-') →
      xs ++ '-' :: as = ys ++ '-' :: bs → xs = ys := by
  intro xs
  induction xs with
  | nil =>
    intro ys as bs _ hys h
    cases ys with
    | nil => rfl
    | cons y ys =>
      have : '-' = y := by simpa using congrArg (fun l => l.headD ' ') h
      exact absurd this.symm (hys y (by simp))
  | cons x xs ih =>
    intro ys as bs hxs hys h
    cases ys with
    | nil =>
      have : x = '-' := by simpa using congrArg (fun l => l.headD ' ') h
      exact absurd this (hxs x (by simp))
    | cons y ys =>
      simp only [List.cons_append, List.cons.injEq] at h
      rw [h.1, ih ys as bs (fun c hc => hxs c (by simp [hc]))
        (fun c hc => hys c (by simp [hc])) h.2]

/-- Distinct offsets give distinct multiquery labels (same title). -/
theorem data_asString (l : List Char) : (List.asString l).data = l := rfl

/-- Distinct offsets give distinct multiquery labels (same title). -/
theorem mkLabel_inj (t : String) (w1 w2 : Nat × Nat)
    (h : mkLabel t w1 = mkLabel t w2) : w1.1 = w2.1 := by
  unfold mkLabel at h
  have hd := congrArg String.data h
  simp only [String.data_append, repr_eq_digitsMSF, data_asString,
    List.append_assoc] at hd
  have hd2 : digitsMSF w1.1 ++ '-' ::
        (digitsMSF (w1.1 + w1.2 - 1) ++ [')']) =
      digitsMSF w2.1 ++ '-' :: (digitsMSF (w2.1 + w2.2 - 1) ++ [')']) :=
    List.append_cancel_left (List.append_cancel_left hd)
  have := no_dash_parse _ _ _ _ (digitsMSF_no_dash w1.1) (digitsMSF_no_dash w2.1) hd2
  exact digitsMSF_injective this

/-! ## Lemmas about the merge-and-sort step -/

theorem processMqResp_ok (r : MqResp) (h : wellFormed r) :
    processMqResp r = .ok (gamesOf r) := by
  obtain ⟨h1, h2, subs, h3⟩ := h
  unfold processMqResp gamesOf
  rw [if_neg (by omega), h3]
  simp [h2]

theorem mergeResponses_ok :
    ∀ (rs : List MqResp) (acc : List Game), (∀ r ∈ rs, wellFormed r) →
      List.foldlM (fun acc r => (processMqResp r).map (fun g => acc ++ g)) acc rs =
        Except.ok (acc ++ flattenResponses rs) := by
  intro rs
  induction rs with
  | nil =>
    intro acc _
    simp only [List.foldlM_nil, flattenResponses, List.flatMap_nil, List.append_nil]
    rfl
  | cons r rs ih =>
    intro acc h
    rw [List.foldlM_cons, processMqResp_ok r (h r (by simp))]
    show List.foldlM _ (acc ++ gamesOf r) rs = _
    rw [ih (acc ++ gamesOf r) (fun r' hr' => h r' (by simp [hr']))]
    have hflat : flattenResponses (r :: rs) = gamesOf r ++ flattenResponses rs := by
      unfold flattenResponses
      rw [List.flatMap_cons]
    rw [hflat, List.append_assoc]

/-- The executable comparator agrees with the code-point order on the
name strings. -/
theorem nameLe_iff (a b : Game) : nameLe a b = true ↔ a.name ≤ b.name := by
  unfold nameLe
  rw [decide_eq_true_iff]
  exact (not_congr String.lt_iff_toList_lt).symm

theorem mem_insertByName (g b : Game) :
    ∀ l : List Game, b ∈ insertByName g l ↔ b = g ∨ b ∈ l := by
  intro l
  induction l with
  | nil => simp [insertByName]
  | cons a t ih =>
    rw [insertByName]
    by_cases hc : nameLe a g = true
    · rw [if_pos hc]
      simp only [List.mem_cons, ih]
      tauto
    · rw [if_neg hc]
      simp only [List.mem_cons]

theorem insertByName_sorted (g : Game) :
    ∀ l : List Game, l.Pairwise (fun a b => a.name ≤ b.name) →
      (insertByName g l).Pairwise (fun a b => a.name ≤ b.name) := by
  intro l
  induction l with
  | nil => intro _; simp [insertByName]
  | cons a t ih =>
    intro h
    obtain ⟨hhead, htail⟩ := List.pairwise_cons.mp h
    rw [insertByName]
    by_cases hc : nameLe a g = true
    · rw [if_pos hc]
      refine List.pairwise_cons.mpr ⟨?_, ih htail⟩
      intro b hb
      rcases (mem_insertByName g b t).mp hb with rfl | hbt
      · exact (nameLe_iff a b).mp hc
      · exact hhead b hbt
    · rw [if_neg hc]
      have hng : ¬ a.name ≤ g.name := fun hle => hc ((nameLe_iff a g).mpr hle)
      refine List.pairwise_cons.mpr ⟨?_, h⟩
      intro b hb
      rcases List.mem_cons.mp hb with rfl | hbt
      · exact le_of_not_le hng
      · exact le_trans (le_of_not_le hng) (hhead b hbt)

theorem insertByName_filter (g : Game) (s : String) :
    ∀ l : List Game, l.Pairwise (fun a b => a.name ≤ b.name) →
      (insertByName g l).filter (fun x => x.name == s) =
        (if g.name = s then l.filter (fun x => x.name == s) ++ [g]
         else l.filter (fun x => x.name == s)) := by
  intro l
  induction l with
  | nil =>
    intro _
    rw [insertByName]
    by_cases hg : g.name = s <;> simp [hg]
  | cons a t ih =>
    intro h
    obtain ⟨hhead, htail⟩ := List.pairwise_cons.mp h
    rw [insertByName]
    by_cases hc : nameLe a g = true
    · rw [if_pos hc]
      by_cases ha : (a.name == s) = true
      · rw [List.filter_cons, if_pos ha, ih htail, List.filter_cons, if_pos ha]
        by_cases hg : g.name = s
        · rw [if_pos hg, if_pos hg]
          rfl
        · rw [if_neg hg, if_neg hg]
      · rw [List.filter_cons, if_neg ha, ih htail, List.filter_cons, if_neg ha]
    · rw [if_neg hc]
      have hng : ¬ a.name ≤ g.name := fun hle => hc ((nameLe_iff a g).mpr hle)
      by_cases hg : g.name = s
      · rw [if_pos hg]
        have hnone : (a :: t).filter (fun x => x.name == s) = [] := by
          rw [List.filter_eq_nil_iff]
          intro x hx
          have hax : a.name ≤ x.name := by
            rcases List.mem_cons.mp hx with rfl | hxt
            · exact le_refl _
            · exact hhead x hxt
          have hgx : g.name < x.name := lt_of_lt_of_le (lt_of_not_le hng) hax
          simp only [beq_iff_eq]
          intro hxs
          rw [hxs, ← hg] at hgx
          exact lt_irrefl _ hgx
        rw [List.filter_cons, if_pos (by simp [hg]), hnone]
        rfl
      · rw [if_neg hg, List.filter_cons, if_neg (by simp [hg])]

theorem sortByName_go (l : List Game) :
    ∀ acc : List Game, acc.Pairwise (fun a b => a.name ≤ b.name) →
      (List.foldl (fun acc g => insertByName g acc) acc l).Pairwise
        (fun a b => a.name ≤ b.name) ∧
      ∀ s, (List.foldl (fun acc g => insertByName g acc) acc l).filter
          (fun x => x.name == s) =
        acc.filter (fun x => x.name == s) ++ l.filter (fun x => x.name == s) := by
  induction l with
  | nil => intro acc h; exact ⟨h, fun s => by simp⟩
  | cons g t ih =>
    intro acc h
    rw [List.foldl_cons]
    obtain ⟨ihs, ihf⟩ := ih (insertByName g acc) (insertByName_sorted g acc h)
    refine ⟨ihs, ?_⟩
    intro s
    rw [ihf s, insertByName_filter g s acc h, List.filter_cons]
    by_cases hg : g.name = s
    · rw [if_pos hg, if_pos (by simp [hg]), List.append_assoc]
      rfl
    · rw [if_neg hg, if_neg (by simp [hg])]

/-- The sort step produces a name-sorted list. -/
theorem sortByName_sorted (l : List Game) :
    (sortByName l).Pairwise (fun a b => a.name ≤ b.name) :=
  (sortByName_go l [] (by simp)).1

/-- Stability of the name sort, phrased per key: the records with any
given name come out in exactly their arrival order. -/
theorem filter_sortByName (l : List Game) (s : String) :
    (sortByName l).filter (fun x => x.name == s) =
      l.filter (fun x => x.name == s) :=
  (sortByName_go l [] (by simp)).2 s

/-- Two name-sorted lists that agree on every per-name filter are equal:
the stable ascending sort is unique. -/
theorem sorted_filter_ext :
    ∀ (l1 l2 : List Game),
      l1.Pairwise (fun a b => a.name ≤ b.name) →
      l2.Pairwise (fun a b => a.name ≤ b.name) →
      (∀ s, l1.filter (fun g => g.name == s) = l2.filter (fun g => g.name == s)) →
      l1 = l2 := by
  intro l1
  induction l1 with
  | nil =>
    intro l2 _ _ hf
    cases l2 with
    | nil => rfl
    | cons b t2 =>
      have h := hf b.name
      simp at h
  | cons a t1 ih =>
    intro l2 h1 h2 hf
    cases l2 with
    | nil =>
      have h := hf a.name
      simp at h
    | cons b t2 =>
      have hab : a = b := by
        by_cases hn : b.name = a.name
        · have h := hf a.name
          rw [List.filter_cons, List.filter_cons, if_pos (by simp),
            if_pos (by simp [hn])] at h
          injection h with h1 _
        · have ha := hf a.name
          rw [List.filter_cons, List.filter_cons, if_pos (by simp),
            if_neg (by simp [hn])] at ha
          have hat2 : a ∈ t2 := by
            have hmem : a ∈ t2.filter (fun g => g.name == a.name) := by
              rw [← ha]
              simp
            exact (List.mem_filter.mp hmem).1
          have hba : b.name ≤ a.name :=
            (List.pairwise_cons.mp h2).1 a hat2
          have hb := hf b.name
          rw [List.filter_cons, List.filter_cons,
            if_neg (by simp only [beq_iff_eq]; exact fun he => hn he.symm),
            if_pos (by simp)] at hb
          have hbt1 : b ∈ t1 := by
            have hmem : b ∈ t1.filter (fun g => g.name == b.name) := by
              rw [hb]
              simp
            exact (List.mem_filter.mp hmem).1
          have hab' : a.name ≤ b.name :=
            (List.pairwise_cons.mp h1).1 b hbt1
          exact absurd (le_antisymm hba hab') hn
      subst hab
      have htails : ∀ s, t1.filter (fun g => g.name == s) =
          t2.filter (fun g => g.name == s) := by
        intro s
        have h := hf s
        rw [List.filter_cons, List.filter_cons] at h
        by_cases hs : (a.name == s) = true
        · rw [if_pos hs, if_pos hs] at h
          injection h
        · rw [if_neg hs, if_neg hs] at h
          exact h
      rw [ih t2 (List.pairwise_cons.mp h1).2 (List.pairwise_cons.mp h2).2 htails]

/-! ## Invariants of the task-group run model -/

theorem cancelLive_fst (ts : List (PlaylistScript × TState)) :
    (cancelLive ts).map Prod.fst = ts.map Prod.fst := by
  unfold cancelLive
  rw [List.map_map]
  apply List.map_congr_left
  intro p _
  by_cases h : isLive p.2 <;> simp [Function.comp, h]

theorem cancelLive_nonlive (ts : List (PlaylistScript × TState)) :
    ∀ p ∈ cancelLive ts, isLive p.2 = false := by
  intro p hp
  unfold cancelLive at hp
  obtain ⟨q, hq, heq⟩ := List.mem_map.mp hp
  subst heq
  by_cases h : isLive q.2 = true
  · rw [if_pos h]
    rfl
  · rw [if_neg h]
    simpa using h

theorem cancelLive_keep (ts : List (PlaylistScript × TState)) (sc : PlaylistScript)
    (st : TState) (hst : isLive st = false) (h : (sc, st) ∈ ts) :
    (sc, st) ∈ cancelLive ts := by
  unfold cancelLive
  refine List.mem_map.mpr ⟨(sc, st), h, ?_⟩
  simp [hst]

theorem cancelLive_finished (ts : List (PlaylistScript × TState))
    (sc : PlaylistScript) (gs : List Game)
    (h : (sc, TState.finished gs) ∈ cancelLive ts) :
    (sc, TState.finished gs) ∈ ts := by
  unfold cancelLive at h
  obtain ⟨q, hq, heq⟩ := List.mem_map.mp h
  by_cases hl : isLive q.2
  · rw [if_pos hl] at heq
    simp at heq
  · rw [if_neg hl] at heq
    rw [← heq]
    exact hq

theorem stepTask_ne_needCount_of_live (sc : PlaylistScript) (st : TState) :
    isLive st = true → stepTask sc st ≠ .cancelled := by
  intro hl
  cases st <;> simp [isLive] at hl <;> unfold stepTask
  · cases validateCount sc.countResp <;> simp
  · rename_i i total
    by_cases h : i < total
    · simp [h]
    · simp only [if_neg h]
      cases fetchMergeSort (List.map (fun j => sc.mq.getD j defaultMqResp)
        (List.range total)) <;> simp
  · simp

theorem runRound_fst :
    ∀ (ts : List (PlaylistScript × TState)) (files : List (String × List Game)),
      (runRound ts files).1.map Prod.fst = ts.map Prod.fst := by
  intro ts
  induction ts with
  | nil => intro files; rfl
  | cons p rest ih =>
    intro files
    obtain ⟨sc, st⟩ := p
    by_cases hl : isLive st
    · simp only [runRound, if_pos hl]
      cases hstep : stepTask sc st <;>
        simp only [List.map_cons, cancelLive_fst, ih] <;>
        (try (by_cases hf : (runRound rest files).2.2 = true <;> simp [hf]))
    · simp only [runRound, if_neg hl, List.map_cons, ih]

theorem runRound_keep_nonlive :
    ∀ (ts : List (PlaylistScript × TState)) (files : List (String × List Game))
      (sc : PlaylistScript) (st : TState), isLive st = false → (sc, st) ∈ ts →
      (sc, st) ∈ (runRound ts files).1 := by
  intro ts
  induction ts with
  | nil => intro files sc st _ h; exact absurd h (by simp)
  | cons p rest ih =>
    intro files sc st hst h
    obtain ⟨sc0, st0⟩ := p
    rcases List.mem_cons.mp h with he | hmem
    · rw [← he]
      simp only [runRound]
      rw [if_neg (show ¬(isLive st = true) by simp [hst])]
      exact List.mem_cons_self _ _
    · by_cases hl : isLive st0 = true
      · simp only [runRound, if_pos hl]
        cases hstep : stepTask sc0 st0
        · exact List.mem_cons_of_mem _ (ih files sc st hst hmem)
        · exact List.mem_cons_of_mem _ (ih files sc st hst hmem)
        · exact List.mem_cons_of_mem _ (ih files sc st hst hmem)
        · exact List.mem_cons_of_mem _ (ih _ sc st hst hmem)
        · exact List.mem_cons_of_mem _ (cancelLive_keep rest sc st hst hmem)
        · exact List.mem_cons_of_mem _ (ih files sc st hst hmem)
      · simp only [runRound, if_neg hl]
        exact List.mem_cons_of_mem _ (ih files sc st hst hmem)

theorem runRound_files_fwd :
    ∀ (ts : List (PlaylistScript × TState)) (files : List (String × List Game)),
      ∀ p ∈ (runRound ts files).2.1, p ∈ files ∨
        ∃ sc, (sc, TState.finished p.2) ∈ (runRound ts files).1 ∧ sc.title = p.1 := by
  intro ts
  induction ts with
  | nil => intro files p hp; exact Or.inl hp
  | cons q rest ih =>
    intro files p hp
    obtain ⟨sc0, st0⟩ := q
    by_cases hl : isLive st0 = true
    · simp only [runRound, if_pos hl] at hp ⊢
      cases hstep : stepTask sc0 st0 <;> rw [hstep] at hp
      · rcases ih files p hp with h | ⟨sc, hsc, ht⟩
        · exact Or.inl h
        · exact Or.inr ⟨sc, List.mem_cons_of_mem _ hsc, ht⟩
      · rcases ih files p hp with h | ⟨sc, hsc, ht⟩
        · exact Or.inl h
        · exact Or.inr ⟨sc, List.mem_cons_of_mem _ hsc, ht⟩
      · rcases ih files p hp with h | ⟨sc, hsc, ht⟩
        · exact Or.inl h
        · exact Or.inr ⟨sc, List.mem_cons_of_mem _ hsc, ht⟩
      · rename_i gs
        rcases ih (files ++ [(sc0.title, gs)]) p hp with h | ⟨sc, hsc, ht⟩
        · rcases List.mem_append.mp h with h' | h'
          · exact Or.inl h'
          · simp only [List.mem_singleton] at h'
            subst h'
            exact Or.inr ⟨sc0, List.mem_cons_self _ _, rfl⟩
        · exact Or.inr ⟨sc, List.mem_cons_of_mem _ hsc, ht⟩
      · exact Or.inl hp
      · rcases ih files p hp with h | ⟨sc, hsc, ht⟩
        · exact Or.inl h
        · exact Or.inr ⟨sc, List.mem_cons_of_mem _ hsc, ht⟩
    · simp only [runRound, if_neg hl] at hp ⊢
      rcases ih files p hp with h | ⟨sc, hsc, ht⟩
      · exact Or.inl h
      · exact Or.inr ⟨sc, List.mem_cons_of_mem _ hsc, ht⟩

theorem runRound_files_mono :
    ∀ (ts : List (PlaylistScript × TState)) (files : List (String × List Game)),
      ∀ p ∈ files, p ∈ (runRound ts files).2.1 := by
  intro ts
  induction ts with
  | nil => intro files p hp; exact hp
  | cons q rest ih =>
    intro files p hp
    obtain ⟨sc0, st0⟩ := q
    by_cases hl : isLive st0 = true
    · simp only [runRound, if_pos hl]
      cases hstep : stepTask sc0 st0
      · exact ih files p hp
      · exact ih files p hp
      · exact ih files p hp
      · exact ih _ p (List.mem_append_left _ hp)
      · exact hp
      · exact ih files p hp
    · simp only [runRound, if_neg hl]
      exact ih files p hp

theorem runRound_files_bwd :
    ∀ (ts : List (PlaylistScript × TState)) (files : List (String × List Game)),
      (∀ sc gs, (sc, TState.finished gs) ∈ ts → (sc.title, gs) ∈ files) →
      ∀ sc gs, (sc, TState.finished gs) ∈ (runRound ts files).1 →
        (sc.title, gs) ∈ (runRound ts files).2.1 := by
  intro ts
  induction ts with
  | nil => intro files _ sc gs h; exact absurd h (by simp [runRound])
  | cons q rest ih =>
    intro files hpre sc gs h
    obtain ⟨sc0, st0⟩ := q
    by_cases hl : isLive st0 = true
    · simp only [runRound, if_pos hl] at h ⊢
      cases hstep : stepTask sc0 st0 <;> simp only [hstep] at h ⊢
      · rcases List.mem_cons.mp h with he | hmem
        · by_cases hfl : (runRound rest files).2.2 = true
          · rw [if_pos hfl] at he
            simp only [Prod.mk.injEq] at he
            exact absurd he.2 (by simp)
          · rw [if_neg hfl] at he
            simp only [Prod.mk.injEq] at he
            exact absurd he.2 (by simp)
        · exact ih files (fun x y hxy => hpre x y (List.mem_cons_of_mem _ hxy))
            sc gs hmem
      · rcases List.mem_cons.mp h with he | hmem
        · by_cases hfl : (runRound rest files).2.2 = true
          · rw [if_pos hfl] at he
            simp only [Prod.mk.injEq] at he
            exact absurd he.2 (by simp)
          · rw [if_neg hfl] at he
            simp only [Prod.mk.injEq] at he
            exact absurd he.2 (by simp)
        · exact ih files (fun x y hxy => hpre x y (List.mem_cons_of_mem _ hxy))
            sc gs hmem
      · rcases List.mem_cons.mp h with he | hmem
        · by_cases hfl : (runRound rest files).2.2 = true
          · rw [if_pos hfl] at he
            simp only [Prod.mk.injEq] at he
            exact absurd he.2 (by simp)
          · rw [if_neg hfl] at he
            simp only [Prod.mk.injEq] at he
            exact absurd he.2 (by simp)
        · exact ih files (fun x y hxy => hpre x y (List.mem_cons_of_mem _ hxy))
            sc gs hmem
      · rename_i gs0
        rcases List.mem_cons.mp h with he | hmem
        · simp only [Prod.mk.injEq, TState.finished.injEq] at he
          obtain ⟨rfl, rfl⟩ := he
          exact runRound_files_mono rest _ _ (List.mem_append_right _ (by simp))
        · exact ih (files ++ [(sc0.title, gs0)])
            (fun x y hxy => List.mem_append_left _
              (hpre x y (List.mem_cons_of_mem _ hxy))) sc gs hmem
      · rcases List.mem_cons.mp h with he | hmem
        · simp only [Prod.mk.injEq] at he
          exact absurd he.2 (by simp)
        · exact hpre sc gs
            (List.mem_cons_of_mem _ (cancelLive_finished rest sc gs hmem))
      · rcases List.mem_cons.mp h with he | hmem
        · by_cases hfl : (runRound rest files).2.2 = true
          · rw [if_pos hfl] at he
            simp only [Prod.mk.injEq] at he
            exact absurd he.2 (by simp)
          · rw [if_neg hfl] at he
            simp only [Prod.mk.injEq] at he
            exact absurd he.2 (by simp)
        · exact ih files (fun x y hxy => hpre x y (List.mem_cons_of_mem _ hxy))
            sc gs hmem
    · simp only [runRound, if_neg hl] at h ⊢
      rcases List.mem_cons.mp h with he | hmem
      · have he2 : sc = sc0 ∧ TState.finished gs = st0 := by
          simpa [Prod.mk.injEq] using he
        obtain ⟨rfl, hst⟩ := he2
        rw [← hst] at hpre
        exact runRound_files_mono rest files _ (hpre sc gs (List.mem_cons_self _ _))
      · exact ih files (fun x y hxy => hpre x y (List.mem_cons_of_mem _ hxy))
          sc gs hmem

theorem runRound_nolive_of_flag :
    ∀ (ts : List (PlaylistScript × TState)) (files : List (String × List Game)),
      (runRound ts files).2.2 = true →
      ∀ p ∈ (runRound ts files).1, isLive p.2 = false := by
  intro ts
  induction ts with
  | nil => intro files h; simp [runRound] at h
  | cons q rest ih =>
    intro files hflag p hp
    obtain ⟨sc0, st0⟩ := q
    by_cases hl : isLive st0 = true
    · simp only [runRound, if_pos hl] at hflag hp
      cases hstep : stepTask sc0 st0 <;> simp only [hstep] at hflag hp
      · rw [if_pos hflag] at hp
        rcases List.mem_cons.mp hp with he | hmem
        · subst he; rfl
        · exact ih files hflag p hmem
      · rw [if_pos hflag] at hp
        rcases List.mem_cons.mp hp with he | hmem
        · subst he; rfl
        · exact ih files hflag p hmem
      · rw [if_pos hflag] at hp
        rcases List.mem_cons.mp hp with he | hmem
        · subst he; rfl
        · exact ih files hflag p hmem
      · rcases List.mem_cons.mp hp with he | hmem
        · subst he; rfl
        · exact ih _ hflag p hmem
      · rcases List.mem_cons.mp hp with he | hmem
        · subst he; rfl
        · exact cancelLive_nonlive rest p hmem
      · rw [if_pos hflag] at hp
        rcases List.mem_cons.mp hp with he | hmem
        · subst he; rfl
        · exact ih files hflag p hmem
    · simp only [runRound, if_neg hl] at hflag hp
      rcases List.mem_cons.mp hp with he | hmem
      · subst he
        simpa using hl
      · exact ih files hflag p hmem

theorem runRound_failed_of_noflag :
    ∀ (ts : List (PlaylistScript × TState)) (files : List (String × List Game)),
      (runRound ts files).2.2 = false →
      ∀ sc e, (sc, TState.failed e) ∈ (runRound ts files).1 →
        (sc, TState.failed e) ∈ ts := by
  intro ts
  induction ts with
  | nil => intro files _ sc e h; exact absurd h (by simp [runRound])
  | cons q rest ih =>
    intro files hflag sc e h
    obtain ⟨sc0, st0⟩ := q
    by_cases hl : isLive st0 = true
    · simp only [runRound, if_pos hl] at hflag h
      cases hstep : stepTask sc0 st0 <;> simp only [hstep] at hflag h
      · rw [if_neg (by rw [hflag]; exact Bool.false_ne_true)] at h
        rcases List.mem_cons.mp h with he | hmem
        · simp only [Prod.mk.injEq] at he
          exact absurd he.2 (by simp)
        · exact List.mem_cons_of_mem _ (ih files hflag sc e hmem)
      · rw [if_neg (by rw [hflag]; exact Bool.false_ne_true)] at h
        rcases List.mem_cons.mp h with he | hmem
        · simp only [Prod.mk.injEq] at he
          exact absurd he.2 (by simp)
        · exact List.mem_cons_of_mem _ (ih files hflag sc e hmem)
      · rw [if_neg (by rw [hflag]; exact Bool.false_ne_true)] at h
        rcases List.mem_cons.mp h with he | hmem
        · simp only [Prod.mk.injEq] at he
          exact absurd he.2 (by simp)
        · exact List.mem_cons_of_mem _ (ih files hflag sc e hmem)
      · rcases List.mem_cons.mp h with he | hmem
        · simp only [Prod.mk.injEq] at he
          exact absurd he.2 (by simp)
        · exact List.mem_cons_of_mem _ (ih _ hflag sc e hmem)
      · exact absurd hflag (by simp)
      · rw [if_neg (by rw [hflag]; exact Bool.false_ne_true)] at h
        rcases List.mem_cons.mp h with he | hmem
        · simp only [Prod.mk.injEq] at he
          exact absurd he.2 (by simp)
        · exact List.mem_cons_of_mem _ (ih files hflag sc e hmem)
    · simp only [runRound, if_neg hl] at hflag h
      rcases List.mem_cons.mp h with he | hmem
      · exact he ▸ List.mem_cons_self _ _
      · exact List.mem_cons_of_mem _ (ih files hflag sc e hmem)

theorem runRound_id_of_nolive :
    ∀ (ts : List (PlaylistScript × TState)) (files : List (String × List Game)),
      (∀ p ∈ ts, isLive p.2 = false) →
      runRound ts files = (ts, files, false) := by
  intro ts
  induction ts with
  | nil => intro files _; rfl
  | cons q rest ih =>
    intro files hall
    obtain ⟨sc0, st0⟩ := q
    have hl : isLive st0 = false := hall (sc0, st0) (List.mem_cons_self _ _)
    simp only [runRound]
    rw [if_neg (show ¬(isLive st0 = true) by simp [hl])]
    rw [ih files (fun p hp => hall p (List.mem_cons_of_mem _ hp))]

theorem runRound_inv (ts : List (PlaylistScript × TState))
    (files : List (String × List Game)) (h : runInv ts files) :
    runInv (runRound ts files).1 (runRound ts files).2.1 := by
  obtain ⟨hfwd, hbwd, hfail⟩ := h
  refine ⟨?_, runRound_files_bwd ts files hbwd, ?_⟩
  · intro p hp
    rcases runRound_files_fwd ts files p hp with h' | h'
    · obtain ⟨sc, hsc, ht⟩ := hfwd p h'
      exact ⟨sc, runRound_keep_nonlive ts files sc _ rfl hsc, ht⟩
    · exact h'
  · intro hex
    by_cases hfl : (runRound ts files).2.2 = true
    · exact runRound_nolive_of_flag ts files hfl
    · obtain ⟨p, hp, e, hpe⟩ := hex
      have hmem : (p.1, TState.failed e) ∈ ts := by
        refine runRound_failed_of_noflag ts files (by simpa using hfl) p.1 e ?_
        rw [← hpe]
        exact hp
      have hall : ∀ q ∈ ts, isLive q.2 = false :=
        hfail ⟨(p.1, TState.failed e), hmem, e, rfl⟩
      rw [runRound_id_of_nolive ts files hall]
      exact hall

theorem runAux_fst :
    ∀ (fuel : Nat) (ts : List (PlaylistScript × TState))
      (files : List (String × List Game)),
      (runAux fuel ts files).1.map Prod.fst = ts.map Prod.fst := by
  intro fuel
  induction fuel with
  | zero => intro ts files; rfl
  | succ fuel ih =>
    intro ts files
    show (if ts.all (fun p => !isLive p.2) then (ts, files)
        else runAux fuel (runRound ts files).1 (runRound ts files).2.1).1.map
          Prod.fst = ts.map Prod.fst
    by_cases hc : ts.all (fun p => !isLive p.2)
    · rw [if_pos hc]
    · rw [if_neg hc, ih, runRound_fst]

theorem runAux_inv :
    ∀ (fuel : Nat) (ts : List (PlaylistScript × TState))
      (files : List (String × List Game)), runInv ts files →
      runInv (runAux fuel ts files).1 (runAux fuel ts files).2 := by
  intro fuel
  induction fuel with
  | zero => intro ts files h; exact h
  | succ fuel ih =>
    intro ts files h
    have hstep : runAux (fuel + 1) ts files =
        if ts.all (fun p => !isLive p.2) then (ts, files)
        else runAux fuel (runRound ts files).1 (runRound ts files).2.1 := rfl
    rw [hstep]
    by_cases hc : ts.all (fun p => !isLive p.2)
    · rw [if_pos hc]
      exact h
    · rw [if_neg hc]
      exact ih _ _ (runRound_inv ts files h)

theorem runScrape_fst (scripts : List PlaylistScript) (fuel : Nat) :
    (runScrape scripts fuel).1.map Prod.fst = scripts := by
  unfold runScrape
  rw [runAux_fst, List.map_map]
  have hcomp : (Prod.fst ∘ fun sc : PlaylistScript => (sc, TState.needCount)) = id := rfl
  rw [hcomp, List.map_id]

theorem runScrape_inv (scripts : List PlaylistScript) (fuel : Nat) :
    runInv (runScrape scripts fuel).1 (runScrape scripts fuel).2 := by
  unfold runScrape
  apply runAux_inv
  refine ⟨?_, ?_, ?_⟩
  · intro p hp
    exact absurd hp (by simp)
  · intro sc gs h
    obtain ⟨q, hq, heq⟩ := List.mem_map.mp h
    simp only [Prod.mk.injEq] at heq
    exact absurd heq.2 (by simp)
  · intro hex
    obtain ⟨p, hp, e, hpe⟩ := hex
    obtain ⟨q, hq, heq⟩ := List.mem_map.mp hp
    rw [← heq] at hpe
    simp at hpe

/-- Entries of the final task list with equal titles are equal, given
pairwise-distinct playlist titles (each playlist owns one output path). -/
theorem runScrape_title_inj (scripts : List PlaylistScript) (fuel : Nat)
    (hnd : (scripts.map PlaylistScript.title).Nodup) :
    ∀ p ∈ (runScrape scripts fuel).1, ∀ q ∈ (runScrape scripts fuel).1,
      p.1.title = q.1.title → p = q := by
  have hmap : ((runScrape scripts fuel).1.map (fun p => p.1.title)).Nodup := by
    have h1 : (runScrape scripts fuel).1.map (fun p => p.1.title) =
        ((runScrape scripts fuel).1.map Prod.fst).map PlaylistScript.title := by
      rw [List.map_map]
      rfl
    rw [h1, runScrape_fst]
    exact hnd
  exact fun p hp q hq => List.inj_on_of_nodup_map hmap hp hq

/-- One-step unfolding of the retry loop. -/
theorem qeAux_succ (outcomes : Nat → DispatchOutcome) (i t fuel : Nat) :
    qeAux outcomes i t (fuel + 1) =
      (match outcomes i with
      | .resp s =>
          if s ∈ RETRY_CODES then
            let r := qeAux outcomes (i + 1) t fuel
            (r.1, r.2 + 1)
          else (QEResult.returned s, 1)
      | .exnHTTP s =>
          if t + 1 = 5 || decide (s ∉ RETRY_CODES) then (QEResult.raisedHTTP s, 1)
          else
            let r := qeAux outcomes (i + 1) (t + 1) fuel
            (r.1, r.2 + 1)
      | .exnOther => (QEResult.raisedOther, 1)) := rfl

/-! ## The claims -/

/-- Claim C4: rendering a Query emits its clauses in the fixed order
fields, exclude, where, limit, offset, sort, search, omitting absent
clauses, with fields/exclude comma-joined, sort rendered as the field
followed by the direction, clauses separated by a semicolon and space
and a trailing semicolon; in particular the query with fields a,b,
where x=1, limit 10, offset 0 and ascending name sort renders to
exactly the pinned wire string.  Checked on the pinned example, on an
all-absent query (bare semicolon), and on a query exercising the
exclude and search clauses with the middle clauses omitted. -/
theorem C4_query_render :
    (mkQuery (.list ["a", "b"]) .none (some "x=1") (some 10) (some 0)
        (some ("name", SortDir.asc)) Option.none).map queryStr =
      .ok "fields a,b; where x=1; limit 10; offset 0; sort name asc;" ∧
    queryStr ⟨Option.none, Option.none, Option.none, Option.none, Option.none,
      Option.none, Option.none⟩ = ";" ∧
    queryStr ⟨some ["f"], some ["x", "y"], Option.none, Option.none, Option.none,
      Option.none, some "q"⟩ = "fields f; exclude x,y; search \"q\";" := by
  refine ⟨by decide, by decide, by decide⟩

/-- Claim C6, counterexample: the claim says constructing a Query with
both `sort` and `search` non-null fails, for every combination of the
other attributes.  The constructor tests Python truthiness, not
non-nullness: with `search` the empty string (non-null) and `sort` set,
construction succeeds and records both values. -/
theorem C6_nonnull_counterexample :
    mkQuery .none .none Option.none Option.none Option.none
      (some ("name", SortDir.asc)) (some "") =
      .ok ⟨Option.none, Option.none, Option.none, Option.none, Option.none,
        some ("name", SortDir.asc), some ""⟩ := by
  rfl

/-- Claim C6, amended: construction fails (with the ValueError standing
for InvalidQuery) exactly when `search` is truthy (non-null and
non-empty) and `sort` is non-null; on success the given `sort` and
`search` values are recorded unchanged.  In particular, with at most
one of them set construction succeeds. -/
theorem C6_sort_search_amended (f e : FieldsArg) (w : Option String)
    (l o : Option Int) (srt : Option (String × SortDir)) (srch : Option String) :
    ((∃ msg, mkQuery f e w l o srt srch = .error msg) ↔
      (truthyStr srch = true ∧ srt.isSome = true)) ∧
    (∀ q, mkQuery f e w l o srt srch = .ok q → q.sort = srt ∧ q.search = srch) := by
  unfold mkQuery
  by_cases hc : (truthyStr srch && srt.isSome) = true
  · rw [if_pos hc]
    simp only [Bool.and_eq_true] at hc
    exact ⟨⟨fun _ => hc, fun _ => ⟨_, rfl⟩⟩, by intro q h; exact absurd h (by simp)⟩
  · rw [if_neg hc]
    simp only [Bool.and_eq_true] at hc
    refine ⟨⟨?_, fun h => absurd h hc⟩, ?_⟩
    · intro ⟨msg, hm⟩
      exact absurd hm (by simp)
    · intro q h
      have hq : q = ⟨normFieldArg f, normFieldArg e, w.map pyStrip,
          l, o, srt, srch⟩ := by
        injection h with h1
        exact h1.symm
      rw [hq]
      exact ⟨rfl, rfl⟩

/-- Witness for C6: at a concrete input with a truthy search and a sort,
construction fails, as the amended claim predicts. -/
theorem C6_sort_search_witness :
    truthyStr (some "x") = true ∧
    (some ("name", SortDir.asc) : Option (String × SortDir)).isSome = true ∧
    (∃ msg, mkQuery .none .none Option.none Option.none Option.none
      (some ("name", SortDir.asc)) (some "x") = .error msg) :=
  ⟨by decide, by decide,
    (C6_sort_search_amended .none .none Option.none Option.none Option.none
      (some ("name", SortDir.asc)) (some "x")).1.mpr ⟨by decide, by decide⟩⟩

/-- Claim C2, counterexample: the claim says at most 5 total dispatch
attempts are made and that a request failing with status 503 on all 5
attempts surfaces RetryExhausted.  The inner backoff.on_predicate
decorator has no max_tries, so 503 responses are retried without bound:
after 100 dispatches that all returned 503 the executor is still
retrying, and no error has been surfaced. -/
theorem C2_unbounded_retry_counterexample :
    queryEndpoint (fun _ => .resp 503) 100 = (QEResult.stillRetrying, 100) := by
  rfl

/-- Claim C2, amended: a request that fails twice with status 503 and
then succeeds returns the successful response after exactly 3 dispatch
attempts (as claimed); but the attempt cap of 5 applies only to
`HTTPStatusError` exceptions raised during dispatch, for which backoff
re-raises the last exception on the 5th try; a retryable *status*
response is retried by the predicate decorator without any bound, so a
permanent 503 responder is retried forever and never surfaces an
error. -/
theorem C2_retry_amended :
    (∀ fuel, 3 ≤ fuel →
      queryEndpoint (fun i => if i < 2 then .resp 503 else .resp 200) fuel =
        (QEResult.returned 200, 3)) ∧
    (∀ fuel, queryEndpoint (fun _ => .resp 503) fuel =
      (QEResult.stillRetrying, fuel)) ∧
    (∀ fuel, 5 ≤ fuel →
      queryEndpoint (fun _ => .exnHTTP 503) fuel = (QEResult.raisedHTTP 503, 5)) := by
  refine ⟨?_, ?_, ?_⟩
  · intro fuel h
    obtain ⟨k, rfl⟩ := Nat.exists_eq_add_of_le' h
    rfl
  · intro fuel
    show qeAux _ 0 0 fuel = _
    suffices h : ∀ (fuel i t : Nat),
        qeAux (fun _ => .resp 503) i t fuel = (QEResult.stillRetrying, fuel) by
      exact h fuel 0 0
    intro fuel
    induction fuel with
    | zero => intro i t; rfl
    | succ fuel ih =>
      intro i t
      show (let r := qeAux (fun _ => DispatchOutcome.resp 503) (i + 1) t fuel
        ((r.1, r.2 + 1) : QEResult × Nat)) = _
      rw [ih (i + 1) t]
  · intro fuel h
    obtain ⟨k, rfl⟩ := Nat.exists_eq_add_of_le' h
    rfl

/-- Witness for C2: the amended behaviour evaluated at concrete fuels:
3 dispatches for the 503-503-success script, still retrying after 7
all-503 dispatches, exception re-raised on the 5th try. -/
theorem C2_retry_witness :
    queryEndpoint (fun i => if i < 2 then .resp 503 else .resp 200) 7 =
      (QEResult.returned 200, 3) ∧
    queryEndpoint (fun _ => .resp 503) 7 = (QEResult.stillRetrying, 7) ∧
    queryEndpoint (fun _ => .exnHTTP 503) 9 = (QEResult.raisedHTTP 503, 5) :=
  ⟨C2_retry_amended.1 7 (by decide), C2_retry_amended.2.1 7,
    C2_retry_amended.2.2 9 (by decide)⟩

/-- Claim C5, counterexample: the claim says network/transport failures
(connection reset, connection timeout) are retried.  The on_exception
decorator catches only HTTPStatusError, so a transport exception
propagates immediately after a single dispatch attempt. -/
theorem C5_transport_counterexample :
    queryEndpoint (fun _ => .exnOther) 10 = (QEResult.raisedOther, 1) := by
  rfl

/-- Claim C5, amended: the executor's classification is: statuses in
the retryable set 408, 429, 500, 502, 503, 504 are retried; any other
status (error or not) is returned to the caller after a single attempt
without retrying (the playlist-level caller then raises the
HTTPStatusError via raise_for_status for error statuses); and a
network/transport failure is not retried at all — it propagates after
one attempt. -/
theorem C5_retry_classification_amended :
    (∀ s ∈ RETRY_CODES,
      queryEndpoint (fun i => if i = 0 then .resp s else .resp 200) 10 =
        (QEResult.returned 200, 2)) ∧
    (∀ (outcomes : Nat → DispatchOutcome) (fuel s : Nat), outcomes 0 = .resp s →
      s ∉ RETRY_CODES → 1 ≤ fuel → queryEndpoint outcomes fuel =
        (QEResult.returned s, 1)) ∧
    (∀ (outcomes : Nat → DispatchOutcome) (fuel : Nat), outcomes 0 = .exnOther →
      1 ≤ fuel → queryEndpoint outcomes fuel = (QEResult.raisedOther, 1)) ∧
    (∀ r : MqResp, 400 ≤ r.status →
      processMqResp r = .error (.httpStatusError r.status)) := by
  refine ⟨?_, ?_, ?_, ?_⟩
  · intro s hs
    fin_cases hs <;> rfl
  · intro outcomes fuel s h0 hs hf
    obtain ⟨k, rfl⟩ := Nat.exists_eq_add_of_le hf
    show qeAux outcomes 0 0 (1 + k) = _
    rw [Nat.add_comm 1 k, qeAux_succ, h0]
    simp [hs]
  · intro outcomes fuel h0 hf
    obtain ⟨k, rfl⟩ := Nat.exists_eq_add_of_le hf
    show qeAux outcomes 0 0 (1 + k) = _
    rw [Nat.add_comm 1 k, qeAux_succ, h0]
  · intro r hr
    unfold processMqResp
    rw [if_pos hr]

/-- Witness for C5: each classification branch evaluated at a concrete
input: a 429 is retried and then succeeds on the second attempt, a 404
is returned at once without retry, a transport failure propagates after
one attempt, and a 404 multiquery response is raised by the caller. -/
theorem C5_retry_classification_witness :
    queryEndpoint (fun i => if i = 0 then .resp 429 else .resp 200) 10 =
      (QEResult.returned 200, 2) ∧
    queryEndpoint (fun _ => .resp 404) 10 = (QEResult.returned 404, 1) ∧
    queryEndpoint (fun _ => .exnOther) 3 = (QEResult.raisedOther, 1) ∧
    processMqResp ⟨404, some "application/json", .arrOf []⟩ =
      .error (.httpStatusError 404) :=
  ⟨C5_retry_classification_amended.1 429 (by decide),
   C5_retry_classification_amended.2.1 (fun _ => .resp 404) 10 404 rfl (by decide)
     (by decide),
   C5_retry_classification_amended.2.2.1 (fun _ => .exnOther) 3 rfl (by decide),
   C5_retry_classification_amended.2.2.2 ⟨404, some "application/json", .arrOf []⟩
     (by decide)⟩

/-- Claim C3: for every playlist whose batch requests all succeed, the
persisted list equals the stable ascending sort, keyed by the record's
name under case-sensitive comparison with ties kept in arrival order,
of the concatenation in batch order of every sub-result's result array.
Stated as: the merge step succeeds and applies the stable name sort to
the flattened records; the output is sorted ascending by name; every
per-name filter of the output equals the per-name filter of the
concatenation (ties keep arrival order); and any list with those two
properties is the output, so the output is THE stable ascending sort. -/
theorem C3_merge_stable_sort (rs : List MqResp) (h : ∀ r ∈ rs, wellFormed r) :
    fetchMergeSort rs = .ok (sortByName (flattenResponses rs)) ∧
    (sortByName (flattenResponses rs)).Pairwise (fun a b => a.name ≤ b.name) ∧
    (∀ s, (sortByName (flattenResponses rs)).filter (fun g => g.name == s) =
      (flattenResponses rs).filter (fun g => g.name == s)) ∧
    (∀ l : List Game, l.Pairwise (fun a b => a.name ≤ b.name) →
      (∀ s, l.filter (fun g => g.name == s) =
        (flattenResponses rs).filter (fun g => g.name == s)) →
      l = sortByName (flattenResponses rs)) := by
  refine ⟨?_, sortByName_sorted _, fun s => filter_sortByName _ s, ?_⟩
  · unfold fetchMergeSort mergeResponses
    rw [mergeResponses_ok rs [] h]
    rfl
  · intro l hls hlf
    exact sorted_filter_ext l _ hls (sortByName_sorted _)
      (fun s => by rw [hlf s, filter_sortByName])

/-- Witness for C3: one batch response whose two sub-results carry
records named b, a and a; the merge concatenates them in order and the
stable sort puts the two records named a first, in arrival order. -/
theorem C3_merge_stable_sort_witness :
    (∀ r ∈ witnessResponses, wellFormed r) ∧
    fetchMergeSort witnessResponses = .ok [⟨"a", 1⟩, ⟨"a", 2⟩, ⟨"b", 0⟩] := by
  have hwf : ∀ r ∈ witnessResponses, wellFormed r := by
    intro r hr
    simp only [witnessResponses, List.mem_singleton] at hr
    subst hr
    exact ⟨by decide, rfl, _, rfl⟩
  refine ⟨hwf, ?_⟩
  rw [(C3_merge_stable_sort witnessResponses hwf).1]
  decide

/-- Claim C7: batching the page windows into multiqueries chunks the
window sequence into batches of at most the batch ceiling of 20,
preserving order so that concatenating all batches reconstructs the
original sequence; each window becomes one sub-query against the games
endpoint whose label is the playlist title followed by the covered
offset range, and labels are unique within a batch; the sub-query
inherits the base query's where clause unchanged with offset and limit
overridden to the window. -/
theorem C7_batching (title : String) (base : Query) (total ps : Nat)
    (hps : 1 ≤ ps) :
    (∀ b ∈ batched MULTIQUERY_MAX (plan_pages total ps),
      b.length ≤ MULTIQUERY_MAX) ∧
    (batched MULTIQUERY_MAX (plan_pages total ps)).flatten =
      plan_pages total ps ∧
    (∀ b ∈ batched MULTIQUERY_MAX (plan_pages total ps),
      mkMultiquery title base b =
        b.map (fun w => (mkLabel title w, ("games", pageQuery base w)))) ∧
    (∀ b ∈ batched MULTIQUERY_MAX (plan_pages total ps),
      (b.map (mkLabel title)).Nodup) ∧
    (∀ w : Nat × Nat, (pageQuery base w).whereClause = base.whereClause ∧
      (pageQuery base w).offset = some (w.1 : Int) ∧
      (pageQuery base w).limit = some (w.2 : Int)) := by
  have h20 : 1 ≤ MULTIQUERY_MAX := by decide
  haveI : IsTrans (Nat × Nat) (fun a b => a.1 < b.1) :=
    ⟨fun _ _ _ hab hbc => Nat.lt_trans hab hbc⟩
  have hpair : (plan_pages total ps).Pairwise (fun a b : Nat × Nat => a.1 < b.1) :=
    List.chain'_iff_pairwise.mp
      (planPagesGo_offset_mono ps hps total 0 total (Nat.le_refl _)).2
  have hnodup : ∀ b ∈ batched MULTIQUERY_MAX (plan_pages total ps),
      (b.map (mkLabel title)).Nodup := by
    intro b hb
    obtain ⟨_, _, hsub⟩ := batched_mem MULTIQUERY_MAX h20 (plan_pages total ps) b hb
    have hbp : b.Pairwise (fun a c : Nat × Nat => a.1 < c.1) := hpair.sublist hsub
    refine List.pairwise_map.mpr (hbp.imp ?_)
    intro a c hac he
    exact absurd (mkLabel_inj title a c he) (Nat.ne_of_lt hac)
  refine ⟨fun b hb => (batched_mem MULTIQUERY_MAX h20 _ b hb).1,
    batched_flatten MULTIQUERY_MAX h20 _, ?_, hnodup, fun w => ⟨rfl, rfl, rfl⟩⟩
  intro b hb
  unfold mkMultiquery
  apply dictOfPairs_eq_self
  rw [List.map_map]
  have hcomp : (Prod.fst ∘ fun w : Nat × Nat =>
      (mkLabel title w, ("games", pageQuery base w))) = mkLabel title := rfl
  rw [hcomp]
  exact hnodup b hb

/-- Witness for C7: the 1200-item, page-size-500 plan batches into one
multiquery of three labelled sub-queries with distinct labels. -/
theorem C7_batching_witness :
    (1 : Nat) ≤ 500 ∧
    (batched MULTIQUERY_MAX (plan_pages 1200 500)).flatten =
      plan_pages 1200 500 ∧
    (∀ b ∈ batched MULTIQUERY_MAX (plan_pages 1200 500),
      (b.map (mkLabel "FBNeo - Arcade Games")).Nodup) :=
  ⟨by decide,
   (C7_batching "FBNeo - Arcade Games"
     ⟨some ["name"], Option.none, some "platform = (52, 79, 80)", some 500,
       some 0, some ("name", SortDir.asc), Option.none⟩ 1200 500 (by decide)).2.1,
   (C7_batching "FBNeo - Arcade Games"
     ⟨some ["name"], Option.none, some "platform = (52, 79, 80)", some 500,
       some 0, some ("name", SortDir.asc), Option.none⟩ 1200 500 (by decide)).2.2.2.1⟩

/-- Claim C8 (spec-modelled pager): for every count and page size at
least 1, the page plan is an ordered sequence of offset/limit windows
with strictly increasing offsets, contiguous and non-overlapping,
covering exactly the interval from 0 to the count (stated as: the
concatenation of the windows' index ranges is exactly the range of the
count); every window's limit is the page size except possibly the last,
clamped to the remainder; a zero count yields no windows, and a
playlist whose validated count is zero issues no page requests and
still writes its artifact as an empty list. -/
theorem C8_plan_pages (total ps : Nat) (hps : 1 ≤ ps) :
    List.Chain' (fun a b : Nat × Nat => a.1 < b.1) (plan_pages total ps) ∧
    (plan_pages total ps).flatMap (fun w => (List.range w.2).map (w.1 + ·)) =
      List.range total ∧
    (∀ w ∈ (plan_pages total ps).dropLast, w.2 = ps) ∧
    (∀ w ∈ plan_pages total ps, 1 ≤ w.2 ∧ w.2 ≤ ps) ∧
    plan_pages 0 ps = [] ∧
    (∀ (title : String) (cr : CountResp), validateCount cr = .ok 0 →
      runScrape [⟨title, cr, []⟩] 4 =
        ([(⟨title, cr, []⟩, TState.finished [])], [(title, [])])) := by
  refine ⟨(planPagesGo_offset_mono ps hps total 0 total (Nat.le_refl _)).2, ?_,
    planPagesGo_dropLast ps hps total 0 total (Nat.le_refl _),
    planPagesGo_limits ps hps total 0 total (Nat.le_refl _), rfl, ?_⟩
  · unfold plan_pages
    rw [planPagesGo_flatMap ps hps total 0 total (Nat.le_refl _),
      List.range_eq_range']
  · intro title cr hvc
    have h1 : stepTask ⟨title, cr, []⟩ TState.needCount = TState.fetching 0 0 := by
      unfold stepTask
      rw [hvc]
      rfl
    have e1 : runRound [(⟨title, cr, []⟩, TState.needCount)] [] =
        ([(⟨title, cr, []⟩, TState.fetching 0 0)], [], false) := by
      simp only [runRound, h1]
      rfl
    have s1 : runScrape [⟨title, cr, []⟩] 4 =
        runAux 3 (runRound [(⟨title, cr, []⟩, TState.needCount)] []).1
          (runRound [(⟨title, cr, []⟩, TState.needCount)] []).2.1 := rfl
    rw [s1, e1]
    rfl

/-- Witness for C8: the 1200/500 plan concretely, the empty plan for
count zero, and a zero-count playlist run that writes an empty
artifact. -/
theorem C8_plan_pages_witness :
    plan_pages 1200 500 = [(0, 500), (500, 500), (1000, 200)] ∧
    plan_pages 0 500 = [] ∧
    runScrape [⟨"Casio - Loopy", zeroCountResp, []⟩] 4 =
      ([(⟨"Casio - Loopy", zeroCountResp, []⟩, TState.finished [])],
        [("Casio - Loopy", [])]) :=
  ⟨by decide, (C8_plan_pages 0 500 (by decide)).2.2.2.2.1,
   (C8_plan_pages 0 500 (by decide)).2.2.2.2.2 "Casio - Loopy" zeroCountResp rfl⟩

/-- Claim C10 (spec-modelled lookup): for the scrape command, a
requested playlist name that matches no known playlist is silently
skipped (the selection keeps exactly the names that resolve, in order,
and raises nothing for unknown ones), and the run fails with an error —
in the selection phase, before authentication and before any network
dispatch — exactly when every requested name is unknown. -/
theorem C10_unknown_playlists (catalog : List PlaylistEntry)
    (names : List String) (hne : names ≠ []) :
    ((∃ msg, selectPlaylists catalog names = .error msg) ↔
      ∀ n ∈ names, getPlaylist catalog n = Option.none) ∧
    (∀ ps, selectPlaylists catalog names = .ok ps →
      ps = names.filterMap (getPlaylist catalog)) ∧
    ((∀ n ∈ names, getPlaylist catalog n = Option.none) →
      ∀ (mk : PlaylistEntry → PlaylistScript) (fuel : Nat),
        handleScrape catalog names mk fuel =
          .error "All listed playlists are unknown.") := by
  have hni : names.isEmpty = false := by
    cases names with
    | nil => exact absurd rfl hne
    | cons a t => rfl
  have hsel : selectPlaylists catalog names =
      if (names.filterMap (getPlaylist catalog)).isEmpty then
        Except.error "All listed playlists are unknown."
      else .ok (names.filterMap (getPlaylist catalog)) := by
    unfold selectPlaylists
    rw [hni]
    rfl
  refine ⟨?_, ?_, ?_⟩
  · rw [hsel]
    by_cases hc : (names.filterMap (getPlaylist catalog)).isEmpty = true
    · rw [if_pos hc]
      simp only [List.isEmpty_iff, List.filterMap_eq_nil_iff] at hc
      exact ⟨fun _ => hc, fun _ => ⟨_, rfl⟩⟩
    · rw [if_neg hc]
      constructor
      · intro ⟨msg, hm⟩
        exact absurd hm (by simp)
      · intro hall
        exact absurd (by
          simp only [List.isEmpty_iff, List.filterMap_eq_nil_iff]
          exact hall) hc
  · intro ps h
    rw [hsel] at h
    by_cases hc : (names.filterMap (getPlaylist catalog)).isEmpty = true
    · rw [if_pos hc] at h
      exact absurd h (by simp)
    · rw [if_neg hc] at h
      injection h with h1
      exact h1.symm
  · intro hall mk fuel
    unfold handleScrape
    rw [hsel, if_pos (by
      simp only [List.isEmpty_iff, List.filterMap_eq_nil_iff]
      exact hall)]
    rfl

/-- Witness for C10: against a two-playlist catalog, one unknown name
among the requests is skipped and the known one is scraped; a request
list of only unknown names fails up front with the selection error. -/
theorem C10_unknown_playlists_witness :
    (["unknown-name", "lynx"] : List String) ≠ [] ∧
    selectPlaylists witnessCatalog ["unknown-name", "lynx"] =
      .ok [⟨"Atari - Lynx", ["atari_lynx", "lynx"]⟩] ∧
    handleScrape witnessCatalog ["nope1", "nope2"]
      (fun p => ⟨p.title, zeroCountResp, []⟩) 4 =
      .error "All listed playlists are unknown." := by
  refine ⟨by decide, by decide, ?_⟩
  exact (C10_unknown_playlists witnessCatalog ["nope1", "nope2"]
    (by decide)).2.2 (fun n hn => by fin_cases hn <;> rfl)
    (fun p => ⟨p.title, zeroCountResp, []⟩) 4

/-- Claim C1, counterexample: the claim says that when one playlist
fails terminally, sibling playlists in the same run continue
independently and are not cancelled, and each sibling that succeeds
still writes its output artifact.  `handle_scrape` runs the playlists
in one `asyncio.TaskGroup`, which cancels every still-running sibling
as soon as one task raises: in a run of two playlists where the first
fails its count validation (count is the string not-a-number) while
the second is still in flight, the second is cancelled, no file at all
is written — even though the second playlist, run alone, completes and
writes its artifact.  No output is written for the failed playlist, as
claimed. -/
theorem C1_sibling_cancellation_counterexample :
    (runScrape [invalidCountScript, okScript] 10).2 = [] ∧
    (runScrape [invalidCountScript, okScript] 10).1.map (fun p => p.2) =
      [TState.failed (PErr.valueError "count is not a number"),
        TState.cancelled] ∧
    (runScrape [okScript] 10).2 =
      [("Amstrad - CPC", [⟨"Rick Dangerous", 0⟩])] := by
  refine ⟨rfl, rfl, rfl⟩

/-- Claim C1, amended: when one playlist fails terminally, no output
file is written for it; siblings that already completed keep their
written artifacts (every finished playlist has its file); but siblings
still in flight are cancelled by the task group rather than continuing
independently — after a failure no task is still running — and a
cancelled sibling writes no artifact. -/
theorem C1_failure_isolation_amended (scripts : List PlaylistScript)
    (fuel : Nat) (hnd : (scripts.map PlaylistScript.title).Nodup) :
    (∀ sc e, (sc, TState.failed e) ∈ (runScrape scripts fuel).1 →
      ∀ gs, (sc.title, gs) ∉ (runScrape scripts fuel).2) ∧
    (∀ sc gs, (sc, TState.finished gs) ∈ (runScrape scripts fuel).1 →
      (sc.title, gs) ∈ (runScrape scripts fuel).2) ∧
    ((∃ p ∈ (runScrape scripts fuel).1, ∃ e, p.2 = TState.failed e) →
      ∀ p ∈ (runScrape scripts fuel).1, isLive p.2 = false) ∧
    (∀ sc, (sc, TState.cancelled) ∈ (runScrape scripts fuel).1 →
      ∀ gs, (sc.title, gs) ∉ (runScrape scripts fuel).2) := by
  obtain ⟨hfwd, hbwd, hfail⟩ := runScrape_inv scripts fuel
  have hinj := runScrape_title_inj scripts fuel hnd
  refine ⟨?_, hbwd, hfail, ?_⟩
  · intro sc e hmem gs hfile
    obtain ⟨sc2, h2, ht⟩ := hfwd (sc.title, gs) hfile
    have heq := hinj (sc2, TState.finished gs) h2 (sc, TState.failed e) hmem ht
    simp at heq
  · intro sc hmem gs hfile
    obtain ⟨sc2, h2, ht⟩ := hfwd (sc.title, gs) hfile
    have heq := hinj (sc2, TState.finished gs) h2 (sc, TState.cancelled) hmem ht
    simp at heq

/-- Witness for C1: in the concrete two-playlist run where the first
playlist's count response is invalid, the amended claim applies: the
failed playlist has no output file. -/
theorem C1_failure_isolation_witness :
    ("Atari - Lynx", ([] : List Game)) ∉
      (runScrape [invalidCountScript, okScript] 10).2 := by
  have hnd : ([invalidCountScript, okScript].map PlaylistScript.title).Nodup := by
    decide
  have hrun : (runScrape [invalidCountScript, okScript] 10).1 =
      [(invalidCountScript,
        TState.failed (PErr.valueError "count is not a number")),
       (okScript, TState.cancelled)] := rfl
  have hmem : (invalidCountScript,
      TState.failed (PErr.valueError "count is not a number")) ∈
      (runScrape [invalidCountScript, okScript] 10).1 := by
    rw [hrun]
    exact List.mem_cons_self _ _
  exact (C1_failure_isolation_amended [invalidCountScript, okScript] 10 hnd).1
    invalidCountScript (PErr.valueError "count is not a number") hmem []

end Igdb
